import Mathlib

/-!
# A shallow embedding of `src/openapi-mcp-server/openapi/parser.ts`

This file embeds the `OpenAPIToMCPConverter` class of
`src/src/openapi-mcp-server/openapi/parser.ts` in Lean 4 and proves, or
refutes, the frozen behavioural claims about it.

Modelling conventions, in correspondence with the TypeScript source:

* JavaScript objects with string keys become association lists
  (`List (String × _)`), preserving insertion order like `Object.entries`.
  Lookup is first-match own-property lookup; the prototype chain is not
  modelled.
* The mutable instance state of the converter (`schemaCache`, `nameCounter`,
  `allComponentSchemas`) and the `console.error` / `console.warn` diagnostic
  channel become an explicit state record `St` threaded through every
  function.  The per-call-chain `resolvedRefs : Set<string>` becomes an
  explicit `List String` argument, threaded through a recursive descent and
  created fresh (`[]`) at each place the source writes `new Set()`.
* Recursion through reference resolution is not structural, so the recursive
  converters take explicit fuel that decreases on every recursive step.  A
  computable bound on the recursion depth is proved sufficient
  (`convertGo_fuel_ge`): above the bound the fuel argument is invisible, so
  the public `convertOpenApiSchemaToJsonSchema` is a genuinely total
  function of its arguments.
* Schema values carried opaquely by the source (enum members, `default`
  values) are modelled as strings; the converter only moves them around.
* Pointer resolution (`internalResolveRef`) walks the document by `/`
  separated segments.  The walk is modelled by its results: pointers of the
  shape `#/components/schemas/<name>` (with `/`-free `<name>`) look up the
  `components.schemas` table; every other in-document pointer is looked up
  in an auxiliary table `extraTargets` of the document holding whatever the
  segment walk would reach elsewhere in the document.  Pointers not starting
  with `#/` never resolve, as in the source.  Deep pointers into a component
  body are not modelled (they behave as unresolvable).
-/

namespace Parser


/-! ## String helpers

The source manipulates pointer strings with `startsWith`, `replace` (of a
leading pattern), `slice`, `toLowerCase`, `padStart` and `toString` on
numbers.  We implement these over `String.data` so that facts about them
reduce to list lemmas. -/

/-- `s.startsWith(p)` of JavaScript. -/
def startsWithS (s p : String) : Bool :=
  p.data.isPrefixOf s.data

/-- Remove a leading `p` from `s` (the source's anchored
`replace(/^p/, '')`, and its `replace('p', '')` under a `startsWith` guard,
which makes the first occurrence the leading one). -/
def stripPre (s p : String) : String :=
  String.mk (s.data.drop p.data.length)

/-- `s.replace(p, q)` restricted to the way the source uses it: when `s`
starts with `p` the leading occurrence is rewritten, otherwise `s` is kept.
(The source only applies it to pointer strings whose only possible
occurrence of the pattern `#/...` prefix is at position 0.) -/
def replacePre (s p q : String) : String :=
  if startsWithS s p then q ++ stripPre s p else s

/-- `s.slice(0, n)` of JavaScript (for `n ≥ 0`). -/
def sliceTo (s : String) (n : Nat) : String :=
  String.mk (s.data.take n)

/-- JavaScript string truthiness of an optional string field: present and
non-empty. -/
def truthyS : Option String → Bool
  | some s => !s.isEmpty
  | none => false

/-- JavaScript `a || b` on two optional string fields, yielding `''` when
both are falsy (the source's `operation.summary || operation.description
|| ''`). -/
def orElseS (a b : Option String) : String :=
  if truthyS a then a.getD "" else if truthyS b then b.getD "" else ""

/-! ## Association lists

JavaScript objects with string keys are modelled as ordered association
lists; lookup is first-match (own properties only). -/

/-- `obj[k]`, as `Object`-style own-property lookup. -/
def lookupA {α : Type} (l : List (String × α)) (k : String) : Option α :=
  (l.find? (fun p => p.1 == k)).map (·.2)

/-! ## The data model

`OpenSchema` is the input `OpenAPIV3.SchemaObject | ReferenceObject`: a
closed variant of the fields the converter reads.  A `ReferenceObject` is
`ref pointer description?`; a concrete node carries the optional fields
used by `convertOpenApiSchemaToJsonSchema`.  `Option` distinguishes an
absent field from a present falsy one (the source distinguishes them with
`in` checks versus truthiness checks).  Enum members and `default` values
are moved verbatim by the source, so they are modelled opaquely as
strings. -/

mutual
inductive OpenSchema where
  | ref (pointer : String) (description : Option String)
  | node (type : Option String) (format : Option String)
      (description : Option String) (enum : Option (List String))
      (dflt : Option String)
      (properties : Option OProps)
      (required : Option (List String))
      (additionalProperties : Option (Sum Bool OpenSchema))
      (items : Option OpenSchema)
      (oneOf : Option OList) (anyOf : Option OList) (allOf : Option OList)

/-- An ordered string-keyed map of input schemas (a `properties` object). -/
inductive OProps where
  | nil
  | cons (k : String) (v : OpenSchema) (rest : OProps)

/-- An ordered list of input schemas (a `oneOf`/`anyOf`/`allOf` array). -/
inductive OList where
  | nil
  | cons (v : OpenSchema) (rest : OList)
end


mutual
/-- The output `IJsonSchema` record: every field the converter or the
closure collector touches, each optional (`mk ref type format description
enum dflt properties required additionalProperties items oneOf anyOf allOf
defs`).  `items` admits the tuple form (`Sum.inr`) because
`collectReferencedSchemaNames` traverses it, although the converter itself
only emits the single form.  `defs` is the attached `$defs` map. -/
inductive JSchema where
  | mk (ref : Option String) (type : Option String) (format : Option String)
      (description : Option String) (enum : Option (List String))
      (dflt : Option String)
      (properties : Option JProps)
      (required : Option (List String))
      (additionalProperties : Option (Sum Bool JSchema))
      (items : Option (Sum JSchema JList))
      (oneOf : Option JList) (anyOf : Option JList) (allOf : Option JList)
      (defs : Option JProps)

/-- An ordered string-keyed map of output schemas (`properties`, `$defs`). -/
inductive JProps where
  | nil
  | cons (k : String) (v : JSchema) (rest : JProps)

/-- An ordered list of output schemas. -/
inductive JList where
  | nil
  | cons (v : JSchema) (rest : JList)
end



namespace JSchema

def ref : JSchema → Option String
  | mk r _ _ _ _ _ _ _ _ _ _ _ _ _ => r

def type : JSchema → Option String
  | mk _ t _ _ _ _ _ _ _ _ _ _ _ _ => t

def format : JSchema → Option String
  | mk _ _ f _ _ _ _ _ _ _ _ _ _ _ => f

def description : JSchema → Option String
  | mk _ _ _ d _ _ _ _ _ _ _ _ _ _ => d

def enum : JSchema → Option (List String)
  | mk _ _ _ _ e _ _ _ _ _ _ _ _ _ => e

def dflt : JSchema → Option String
  | mk _ _ _ _ _ d _ _ _ _ _ _ _ _ => d

def properties : JSchema → Option JProps
  | mk _ _ _ _ _ _ p _ _ _ _ _ _ _ => p

def required : JSchema → Option (List String)
  | mk _ _ _ _ _ _ _ r _ _ _ _ _ _ => r

def additionalProperties : JSchema → Option (Sum Bool JSchema)
  | mk _ _ _ _ _ _ _ _ a _ _ _ _ _ => a

def items : JSchema → Option (Sum JSchema JList)
  | mk _ _ _ _ _ _ _ _ _ i _ _ _ _ => i

def oneOf : JSchema → Option JList
  | mk _ _ _ _ _ _ _ _ _ _ o _ _ _ => o

def anyOf : JSchema → Option JList
  | mk _ _ _ _ _ _ _ _ _ _ _ a _ _ => a

def allOf : JSchema → Option JList
  | mk _ _ _ _ _ _ _ _ _ _ _ _ a _ => a

def defs : JSchema → Option JProps
  | mk _ _ _ _ _ _ _ _ _ _ _ _ _ d => d

/-- The empty object literal `{}` the converter starts from. -/
def empty : JSchema :=
  mk none none none none none none none none none none none none none none

/-- Attach (or replace) the `$defs` field. -/
def withDefs : JSchema → Option JProps → JSchema
  | mk r t f d e df p rq a i o an al _, ds => mk r t f d e df p rq a i o an al ds

/-- Overwrite the `description` field (the source's
`schema.description = ...` assignments). -/
def withDescription : JSchema → Option String → JSchema
  | mk r t f _ e df p rq a i o an al ds, d => mk r t f d e df p rq a i o an al ds

end JSchema


namespace JProps

/-- Own-property lookup in an output-schema map. -/
def lookup : JProps → String → Option JSchema
  | .nil, _ => none
  | .cons k v rest, q => if k == q then some v else lookup rest q

/-- The keys, in order. -/
def keys : JProps → List String
  | .nil => []
  | .cons k _ rest => k :: keys rest

/-- Build a map from an association list. -/
def ofList : List (String × JSchema) → JProps
  | [] => .nil
  | (k, v) :: rest => .cons k v (ofList rest)

/-- The underlying association list. -/
def toList : JProps → List (String × JSchema)
  | .nil => []
  | .cons k v rest => (k, v) :: toList rest

end JProps


/-! ### Sizes

Structural sizes of the schema types, used only to compute sufficient fuel
for the recursive converters. -/

mutual
def osize : OpenSchema → Nat
  | .ref _ _ => 1
  | .node _ _ _ _ _ props _ addP items one anyO allO =>
    1 + (match props with | some ps => opsize ps | none => 0) +
      (match addP with | some (.inr s) => osize s | _ => 0) +
      (match items with | some s => osize s | none => 0) +
      (match one with | some l => olsize l | none => 0) +
      (match anyO with | some l => olsize l | none => 0) +
      (match allO with | some l => olsize l | none => 0)

def opsize : OProps → Nat
  | .nil => 0
  | .cons _ v rest => 1 + osize v + opsize rest

def olsize : OList → Nat
  | .nil => 0
  | .cons v rest => 1 + osize v + olsize rest
end


/-- The size of an optional properties map. -/
def opsizeO : Option OProps → Nat
  | some ps => opsize ps
  | none => 0

/-- The size of an optional composition list. -/
def olsizeO : Option OList → Nat
  | some l => olsize l
  | none => 0

/-- The size of an optional `additionalProperties` field. -/
def osizeAO : Option (Sum Bool OpenSchema) → Nat
  | some (.inr s) => osize s
  | _ => 0

/-- The size of an optional `items` field. -/
def osizeItm : Option OpenSchema → Nat
  | some s => osize s
  | none => 0

mutual
def jsize : JSchema → Nat
  | .mk _ _ _ _ _ _ props _ addP items one anyO allO ds =>
    1 + (match props with | some ps => jpsize ps | none => 0) +
      (match addP with | some (.inr s) => jsize s | _ => 0) +
      (match items with
       | some (.inl s) => jsize s
       | some (.inr l) => jlsize l
       | none => 0) +
      (match one with | some l => jlsize l | none => 0) +
      (match anyO with | some l => jlsize l | none => 0) +
      (match allO with | some l => jlsize l | none => 0) +
      (match ds with | some ps => jpsize ps | none => 0)

def jpsize : JProps → Nat
  | .nil => 0
  | .cons _ v rest => 1 + jsize v + jpsize rest

def jlsize : JList → Nat
  | .nil => 0
  | .cons v rest => 1 + jsize v + jlsize rest
end


/-- A `ParameterObject`: the fields `resolveParameter` and the operation
compilers read.  `required` is a JavaScript truthiness check, so a plain
`Bool` suffices; `name` is checked for truthiness, so the empty string acts
as missing. -/
structure Param where
  name : String
  description : Option String
  required : Bool
  schema : Option OpenSchema

/-- A `MediaTypeObject` (an entry of a `content` map). -/
structure Media where
  schema : Option OpenSchema

/-- A `RequestBodyObject`. -/
structure RequestBody where
  content : Option (List (String × Media))

/-- A `ResponseObject`. -/
structure ResponseObj where
  description : Option String
  content : Option (List (String × Media))

/-- What a document pointer can resolve to.  `internalResolveRef` returns
`current` untyped and each caller casts; the variants record which kind of
object actually sits at the target. -/
inductive RefTarget where
  | schemaT (s : OpenSchema)
  | paramT (p : Param)
  | requestBodyT (b : RequestBody)
  | responseT (r : ResponseObj)

/-- `ParameterObject | ReferenceObject` (`'$ref' in param` discriminates). -/
inductive ParamOrRef where
  | item (p : Param)
  | ref (pointer : String)

/-- `RequestBodyObject | ReferenceObject`. -/
inductive BodyOrRef where
  | item (b : RequestBody)
  | ref (pointer : String)

/-- `ResponseObject | ReferenceObject`. -/
inductive RespOrRef where
  | item (r : ResponseObj)
  | ref (pointer : String)

/-- An `OperationObject`: the fields the converter reads. -/
structure Operation where
  operationId : Option String
  summary : Option String
  description : Option String
  parameters : Option (List ParamOrRef)
  requestBody : Option BodyOrRef
  responses : Option (List (String × RespOrRef))

/-- The OpenAPI document.  `paths` maps a path to a path item, itself a map
from keys (HTTP methods among them) to operations; a `none` path item
models the `if (!pathItem) continue` guard.  `schemas` is
`components.schemas`.  `extraTargets` models, by full pointer string, what
the segment walk of `internalResolveRef` reaches at in-document pointers
other than `#/components/schemas/<name>`. -/
structure Document where
  infoTitle : String
  paths : List (String × Option (List (String × Operation)))
  schemas : List (String × OpenSchema)
  extraTargets : List (String × RefTarget)

/-- The mutable converter-instance state plus the diagnostics channel:
`schemaCache`, accumulated `console.error`/`console.warn` lines,
`nameCounter`, and the lazily cached `allComponentSchemas`. -/
structure St where
  cache : List (String × JSchema)
  log : List String
  counter : Nat
  allComps : Option (List (String × JSchema))

/-- The state of a freshly constructed converter instance. -/
def St.init : St := ⟨[], [], 0, none⟩

/-- JavaScript object-key assignment `obj[k] = v`: replace in place if the
key exists, append otherwise. -/
def setA {α : Type} (l : List (String × α)) (k : String) (v : α) :
    List (String × α) :=
  if (l.find? (fun p => p.1 == k)).isSome then
    l.map (fun p => if p.1 == k then (k, v) else p)
  else l ++ [(k, v)]

/-! ## Pointer resolution (`internalResolveRef`) -/

/-- The shared-component pointer prefix the converter string-matches. -/
def schemasPrefix : String := "#/components/schemas/"

/-- The local-definitions pointer prefix of compiled schemas. -/
def defsPrefix : String := "#/$defs/"

/-- What the `/`-segment walk of `internalResolveRef` (lines 137–144 of the
source) reaches at an in-document pointer: `#/components/schemas/<name>`
pointers (with `/`-free `<name>`) walk into the `components.schemas` table;
other pointers reach whatever the document holds at that path, recorded in
`extraTargets`.  Deep pointers into a component body are not modelled and
behave as unresolvable. -/
def walkDoc (doc : Document) (r : String) : Option RefTarget :=
  if startsWithS r schemasPrefix then
    if (stripPre r schemasPrefix).data.contains '/' then none
    else (lookupA doc.schemas (stripPre r schemasPrefix)).map RefTarget.schemaT
  else lookupA doc.extraTargets r

/-- `internalResolveRef(ref, resolvedRefs)`: reject pointers not rooted at
the document, break cycles via the per-chain visited set, walk the
document, and mark the pointer visited on success.  Returns the resolved
target (if any) and the updated visited set. -/
def internalResolveRef (doc : Document) (r : String) (resolvedRefs : List String) :
    Option RefTarget × List String :=
  if ¬ startsWithS r "#/" then (none, resolvedRefs)
  else if r ∈ resolvedRefs then (none, resolvedRefs)
  else
    match walkDoc doc r with
    | none => (none, resolvedRefs)
    | some t => (some t, r :: resolvedRefs)

/-- The `as OpenAPIV3.SchemaObject` cast applied to a resolved target: a
schema target is itself; a parameter or response object read through the
schema-field accessors exposes only its `description`; a request body
exposes none of them. -/
def RefTarget.asSchema : RefTarget → OpenSchema
  | .schemaT s => s
  | .paramT p =>
      .node none none p.description none none none none none none none none none
  | .requestBodyT _ =>
      .node none none none none none none none none none none none none
  | .responseT r =>
      .node none none r.description none none none none none none none none none

/-! ### A finite bound on resolvable pointers (for fuel sufficiency) -/

/-- An overapproximation of the pointers `walkDoc` can succeed on. -/
def resolvableRefs (doc : Document) : List String :=
  doc.schemas.map (fun p => schemasPrefix ++ p.1) ++ doc.extraTargets.map (·.1)

/-- How many resolvable pointers are not yet in the visited set. -/
def toResolve (doc : Document) (vis : List String) : Nat :=
  ((resolvableRefs doc).filter (fun r => decide (r ∉ vis))).length

/-- The size of the schema view of a resolved target. -/
def targetSize (t : RefTarget) : Nat :=
  osize t.asSchema

/-- Maximum of a list of naturals. -/
def maxList (l : List Nat) : Nat := l.foldr max 0

/-- The largest `targetSize` over the whole document. -/
def maxTargetSize (doc : Document) : Nat :=
  maxList ((doc.schemas.map fun p => osize p.2) ++
    (doc.extraTargets.map fun p => targetSize p.2))

/-! ## The schema converter (`convertOpenApiSchemaToJsonSchema`)

The converter threads the per-chain visited set and the instance state
together. -/

/-- The state threaded through one conversion descent: the per-chain
visited set plus the instance state. -/
structure CSt where
  vis : List String
  st : St

/-- Append one `console.error`/`console.warn` line. -/
def CSt.logAdd (c : CSt) (m : String) : CSt :=
  { c with st := { c.st with log := c.st.log ++ [m] } }

/-- `this.schemaCache[ref] = converted`. -/
def CSt.cacheSet (c : CSt) (k : String) (v : JSchema) : CSt :=
  { c with st := { c.st with cache := setA c.st.cache k v } }

/-- The diagnostic of line 165 of the source. -/
def attemptMsg (r : String) : String :=
  "Attempting to resolve ref " ++ r ++ " not found in components collection."

/-- The diagnostic of line 182 of the source. -/
def failMsg (r : String) : String :=
  "Failed to resolve ref " ++ r

/-- The local-pointer rewrite of a shared-component reference (lines
159–163): rewrite the prefix and keep the description when the field is
present. -/
def localPointerNode (r : String) (d : Option String) : JSchema :=
  JSchema.mk (some (replacePre r schemasPrefix defsPrefix)) none none d
    none none none none none none none none none none

/-- The degraded node returned for an unresolvable reference (lines
183–186): the prefix-rewritten pointer plus an always-present description
defaulting to the empty string. -/
def degradedNode (r : String) (d : Option String) : JSchema :=
  JSchema.mk (some (replacePre r schemasPrefix defsPrefix)) none none
    (some (d.getD "")) none none none none none none none none none none

/-- Convert each element of a list, threading the state (the element-wise
recursions inside `oneOf`/`anyOf`/`allOf` maps). -/
def convertListWith (f : OpenSchema → CSt → JSchema × CSt) :
    OList → CSt → JList × CSt
  | .nil, c => (.nil, c)
  | .cons s rest, c =>
    let (j, c₁) := f s c
    let (js, c₂) := convertListWith f rest c₁
    (.cons j js, c₂)

/-- Convert each property value, threading the state (the
`Object.entries(schema.properties)` loop). -/
def convertPropsWith (f : OpenSchema → CSt → JSchema × CSt) :
    OProps → CSt → JProps × CSt
  | .nil, c => (.nil, c)
  | .cons k s rest, c =>
    let (j, c₁) := f s c
    let (js, c₂) := convertPropsWith f rest c₁
    (.cons k j js, c₂)

/-- The `type` passthrough (`if (schema.type) result.type = schema.type`,
including the redundant re-assignments in the object and array branches). -/
def jtypeOf (ty : Option String) : Option String :=
  if truthyS ty then ty else none

/-- The `format`/`description` rules of lines 202–212: `binary` becomes
`uri-reference` with the file-path clause appended to (not replacing) any
truthy description; other formats are dropped and a truthy description
passes through. -/
def jformatDescOf (fmt d : Option String) : Option String × Option String :=
  if fmt = some "binary" then
    (some "uri-reference",
      some (if truthyS d then d.getD "" ++ " (absolute paths to local files)"
            else "absolute paths to local files"))
  else
    (none, if truthyS d then d else none)

/-- `required` is kept only inside the object branch and only when present
and non-empty (lines 231–233). -/
def jreqOf (ty : Option String) (req : Option (List String)) :
    Option (List String) :=
  if ty = some "object" then
    match req with
    | some l => if l.length > 0 then some l else none
    | none => none
  else none

/-- The properties recursion of the object branch (lines 225–230). -/
def convertPropsStep (f : OpenSchema → CSt → JSchema × CSt)
    (ty : Option String) (props : Option OProps) (c : CSt) :
    Option JProps × CSt :=
  if ty = some "object" then
    match props with
    | some ps =>
      let (qs, c') := convertPropsWith f ps c
      (some qs, c')
    | none => (none, c)
  else (none, c)

/-- The `additionalProperties` rule of the object branch (lines 234–240):
kept when exactly `false`, converted when a schema, dropped otherwise. -/
def convertAddPStep (f : OpenSchema → CSt → JSchema × CSt)
    (ty : Option String) (addP : Option (Sum Bool OpenSchema)) (c : CSt) :
    Option (Sum Bool JSchema) × CSt :=
  if ty = some "object" then
    match addP with
    | some (Sum.inl false) => (some (Sum.inl false), c)
    | some (Sum.inr t) =>
      let (jt, c') := f t c
      (some (Sum.inr jt), c')
    | _ => (none, c)
  else (none, c)

/-- The `items` recursion of the array branch (lines 244–247). -/
def convertItemsStep (f : OpenSchema → CSt → JSchema × CSt)
    (ty : Option String) (items : Option OpenSchema) (c : CSt) :
    Option (Sum JSchema JList) × CSt :=
  if ty = some "array" then
    match items with
    | some it =>
      let (jt, c') := f it c
      (some (Sum.inl jt), c')
    | none => (none, c)
  else (none, c)

/-- One composition list (`oneOf`/`anyOf`/`allOf`), converted elementwise
when present (lines 250–258). -/
def convertCompStep (f : OpenSchema → CSt → JSchema × CSt)
    (l : Option OList) (c : CSt) : Option JList × CSt :=
  match l with
  | some l =>
    let (jl, c') := convertListWith f l c
    (some jl, c')
  | none => (none, c)

/-- `convertOpenApiSchemaToJsonSchema`, with fuel.  The fuel decreases on
every recursive step; `convertBound` below computes a provably sufficient
amount.  Structure mirrors the source:

* reference nodes: in local mode a `#/components/schemas/` pointer is
  rewritten to a `#/$defs/` local pointer without resolution; any other
  pointer logs the line-165 diagnostic and falls through to the cache, then
  to resolution; failed resolution degrades (line-182 diagnostic), success
  converts the resolved target and caches it by pointer;
* concrete nodes: the field rules above, applied in source order. -/
def convertGo (doc : Document) (resolveRefs : Bool) :
    Nat → OpenSchema → CSt → JSchema × CSt
  | 0, _, c => (JSchema.empty, c)
  | fuel + 1, .ref r d, c =>
    if !resolveRefs && startsWithS r schemasPrefix then
      (localPointerNode r d, c)
    else
      -- the fall-through `console.error` of line 165 fires only in local mode
      let c := if resolveRefs then c else c.logAdd (attemptMsg r)
      match lookupA c.st.cache r with
      | some cached => (cached, c)
      | none =>
        match internalResolveRef doc r c.vis with
        | (none, vis') => ((degradedNode r d), ({ c with vis := vis' }).logAdd (failMsg r))
        | (some t, vis') =>
          let (j, c₂) := convertGo doc resolveRefs fuel t.asSchema { c with vis := vis' }
          (j, c₂.cacheSet r j)
  | fuel + 1, .node ty fmt d en df props req addP items one anyO allO, c =>
    let (jprops, c₁) := convertPropsStep (convertGo doc resolveRefs fuel) ty props c
    let (jaddP, c₂) := convertAddPStep (convertGo doc resolveRefs fuel) ty addP c₁
    let (jitems, c₃) := convertItemsStep (convertGo doc resolveRefs fuel) ty items c₂
    let (jone, c₄) := convertCompStep (convertGo doc resolveRefs fuel) one c₃
    let (jany, c₅) := convertCompStep (convertGo doc resolveRefs fuel) anyO c₄
    let (jall, c₆) := convertCompStep (convertGo doc resolveRefs fuel) allO c₅
    (JSchema.mk none (jtypeOf ty) (jformatDescOf fmt d).1 (jformatDescOf fmt d).2
      en df jprops (jreqOf ty req) jaddP jitems jone jany jall none, c₆)

/-- A provably sufficient amount of fuel for `convertGo` starting from
schema `s` with visited set `vis`. -/
def convertBound (doc : Document) (s : OpenSchema) (vis : List String) : Nat :=
  osize s + toResolve doc vis * (1 + maxTargetSize doc) + 1

/-- `convertOpenApiSchemaToJsonSchema(schema, resolvedRefs, resolveRefs)`:
the total converter, instantiated with sufficient fuel. -/
def convertOpenApiSchemaToJsonSchema (doc : Document) (s : OpenSchema)
    (vis : List String) (resolveRefs : Bool) (st : St) : JSchema × CSt :=
  convertGo doc resolveRefs (convertBound doc s vis) s ⟨vis, st⟩

/-! ## The component table (`convertComponentsToJsonSchema`,
`getAllComponentSchemas`) -/

/-- The `Object.entries(components.schemas)` loop: convert every component
in local mode, each with a fresh visited set, accumulating the result map
by key assignment. -/
def convertComponentsGo (doc : Document) :
    List (String × OpenSchema) → List (String × JSchema) → St →
      List (String × JSchema) × St
  | [], acc, st => (acc, st)
  | (k, v) :: rest, acc, st =>
    let (j, c) := convertOpenApiSchemaToJsonSchema doc v [] false st
    convertComponentsGo doc rest (setA acc k j) c.st

/-- `convertComponentsToJsonSchema()`. -/
def convertComponentsToJsonSchema (doc : Document) (st : St) :
    List (String × JSchema) × St :=
  convertComponentsGo doc doc.schemas [] st

/-- `getAllComponentSchemas()`: compute the component table once and memo
it on the instance. -/
def getAllComponentSchemas (doc : Document) (st : St) :
    List (String × JSchema) × St :=
  match st.allComps with
  | some m => (m, st)
  | none =>
    let (m, st') := convertComponentsToJsonSchema doc st
    (m, { st' with allComps := some m })

/-! ## The closure collector (`collectReferencedSchemaNames`,
`buildSelectiveDefs`) -/

/-- Walk each property value with the collector state. -/
def collectPropsWith (f : JSchema → List String × St → List String × St) :
    JProps → List String × St → List String × St
  | .nil, a => a
  | .cons _ v rest, a => collectPropsWith f rest (f v a)

/-- Walk each list element with the collector state. -/
def collectListWith (f : JSchema → List String × St → List String × St) :
    JList → List String × St → List String × St
  | .nil, a => a
  | .cons v rest, a => collectListWith f rest (f v a)

/-- Apply a walker to an optional field (`if (schema.field) ...`). -/
def optStep {α A : Type} (g : α → A → A) : Option α → A → A
  | some x, a => g x a
  | none, a => a

/-- The `$ref` handling of the collector (lines 53–66): a `#/$defs/`
pointer adds its name to the collected set (insertion order kept, as for a
JavaScript `Set`) and, when newly discovered and present in the lazily
computed component table, its converted body is traversed too. -/
def collectRefStep (doc : Document)
    (f : JSchema → List String × St → List String × St)
    (r? : Option String) (a : List String × St) : List String × St :=
  match r? with
  | some r =>
    if startsWithS r defsPrefix then
      if stripPre r defsPrefix ∈ a.1 then a
      else
        let collected := a.1 ++ [stripPre r defsPrefix]
        let (allSchemas, st) := getAllComponentSchemas doc a.2
        match lookupA allSchemas (stripPre r defsPrefix) with
        | some body => f body (collected, st)
        | none => (collected, st)
    else a
  | none => a

/-- The `items` walk of the collector (lines 76–84): single or tuple form. -/
def collectItemsStep (f : JSchema → List String × St → List String × St) :
    Option (Sum JSchema JList) → List String × St → List String × St
  | some (.inl it), a => f it a
  | some (.inr l), a => collectListWith f l a
  | none, a => a

/-- The `additionalProperties` walk of the collector (lines 86–89): only a
schema-valued field is traversed. -/
def collectAddPStep (f : JSchema → List String × St → List String × St) :
    Option (Sum Bool JSchema) → List String × St → List String × St
  | some (.inr t), a => f t a
  | _, a => a

/-- `collectReferencedSchemaNames(schema, collected)`, with fuel: the
`$ref` step, then `properties`, `items`, `additionalProperties` and the
three composition lists, in source order. -/
def collectGo (doc : Document) :
    Nat → JSchema → List String × St → List String × St
  | 0, _, a => a
  | fuel + 1, s, a =>
    let a₁ := collectRefStep doc (collectGo doc fuel) s.ref a
    let a₂ := optStep (collectPropsWith (collectGo doc fuel)) s.properties a₁
    let a₃ := collectItemsStep (collectGo doc fuel) s.items a₂
    let a₄ := collectAddPStep (collectGo doc fuel) s.additionalProperties a₃
    let a₅ := optStep (collectListWith (collectGo doc fuel)) s.oneOf a₄
    let a₆ := optStep (collectListWith (collectGo doc fuel)) s.anyOf a₅
    optStep (collectListWith (collectGo doc fuel)) s.allOf a₆

/-- How many component names are not yet collected. -/
def namesToCollect (keys collected : List String) : Nat :=
  (keys.filter (fun k => decide (k ∉ collected))).length

/-- The largest size of a converted component body. -/
def maxBodySize (m : List (String × JSchema)) : Nat :=
  maxList (m.map fun p => jsize p.2)

/-- A provably sufficient amount of fuel for `collectGo`. -/
def collectBound (doc : Document) (s : JSchema) (a : List String × St) : Nat :=
  let m := (getAllComponentSchemas doc a.2).1
  jsize s + namesToCollect (m.map (·.1)) a.1 * (1 + maxBodySize m) + 1

/-- `collectReferencedSchemaNames`, instantiated with sufficient fuel. -/
def collectReferencedSchemaNames (doc : Document) (s : JSchema)
    (a : List String × St) : List String × St :=
  collectGo doc (collectBound doc s a) s a

/-- One step of the `selectiveDefs` construction: copy a collected name's
body from the component table when the table has it, skip it otherwise. -/
def defsStep (T : List (String × JSchema)) (acc : List (String × JSchema))
    (name : String) : List (String × JSchema) :=
  match lookupA T name with
  | some v => setA acc name v
  | none => acc

/-- `buildSelectiveDefs(schema)`: the collected closure restricted to names
present in the component table; `none` (never an empty map) when nothing
remains. -/
def buildSelectiveDefs (doc : Document) (s : JSchema) (st : St) :
    Option (List (String × JSchema)) × St :=
  let (referencedNames, st₁) := collectReferencedSchemaNames doc s ([], st)
  if referencedNames.isEmpty then (none, st₁)
  else
    let (allSchemas, st₂) := getAllComponentSchemas doc st₁
    let selectiveDefs := referencedNames.foldl (defsStep allSchemas) []
    (if selectiveDefs.isEmpty then none else some selectiveDefs, st₂)

/-! ## Resolution of parameters, request bodies and responses -/

/-- The description field of a raw schema object (used when a pointer
resolves to an object that a caller casts to another shape). -/
def OpenSchema.description : OpenSchema → Option String
  | .ref _ d => d
  | .node _ _ d _ _ _ _ _ _ _ _ _ => d

/-- The `as OpenAPIV3.RequestBodyObject` cast: only `content` is read. -/
def RefTarget.asRequestBody : RefTarget → RequestBody
  | .requestBodyT b => b
  | .responseT r => ⟨r.content⟩
  | .paramT _ => ⟨none⟩
  | .schemaT _ => ⟨none⟩

/-- The `as OpenAPIV3.ResponseObject` cast: `description` and `content`
are read. -/
def RefTarget.asResponse : RefTarget → ResponseObj
  | .responseT r => r
  | .requestBodyT b => ⟨none, b.content⟩
  | .paramT p => ⟨p.description, none⟩
  | .schemaT s => ⟨s.description, none⟩

/-- `resolveParameter`: a plain parameter object is returned as is; a
reference is resolved with a fresh visited set and accepted only when the
target carries a truthy `name`. -/
def resolveParameter (doc : Document) : ParamOrRef → Option Param
  | .item p => some p
  | .ref r =>
    match (internalResolveRef doc r []).1 with
    | some (.paramT p) => if p.name.isEmpty then none else some p
    | _ => none

/-- `resolveRequestBody`. -/
def resolveRequestBody (doc : Document) : BodyOrRef → Option RequestBody
  | .item b => some b
  | .ref r =>
    match (internalResolveRef doc r []).1 with
    | some t => some t.asRequestBody
    | none => none

/-- `resolveResponse`. -/
def resolveResponse (doc : Document) : RespOrRef → Option ResponseObj
  | .item r => some r
  | .ref r =>
    match (internalResolveRef doc r []).1 with
    | some t => some t.asResponse
    | none => none

/-! ## Operation compilation -/

/-- `NewToolMethod`. -/
structure NewToolMethod where
  name : String
  description : String
  inputSchema : JSchema
  returnSchema : Option JSchema

/-- The shared parameter loop of `convertOperationToMCPMethod` (lines
491–506) and `convertOperationToJsonSchema` (lines 378–393), whose bodies
are identical in the source: resolve each parameter, skip it silently
unless it resolved and carries a schema, convert the schema with a fresh
visited set, overwrite its description with the parameter's when truthy,
record it under the parameter's name, and append to `required` when the
parameter is required. -/
def paramsGo (doc : Document) :
    List ParamOrRef → List (String × JSchema) → List String → St →
      List (String × JSchema) × List String × St
  | [], props, req, st => (props, req, st)
  | param :: rest, props, req, st =>
    match resolveParameter doc param with
    | some paramObj =>
      match paramObj.schema with
      | some ps =>
        let (schema, c) := convertOpenApiSchemaToJsonSchema doc ps [] false st
        let schema' := if truthyS paramObj.description then
            schema.withDescription paramObj.description else schema
        paramsGo doc rest (setA props paramObj.name schema')
          (if paramObj.required then req ++ [paramObj.name] else req) c.st
      | none => paramsGo doc rest props req st
    | none => paramsGo doc rest props req st

/-- `schema.type === 'object' && schema.properties`: merge the body
schema's properties and required names into the accumulators. -/
def mergeObjectBody (bodySchema : JSchema)
    (props : List (String × JSchema)) (req : List String) :
    List (String × JSchema) × List String :=
  ((bodySchema.properties.getD .nil).toList.foldl
      (fun acc p => setA acc p.1 p.2) props,
    req ++ (bodySchema.required.getD []))

/-- The request-body handling of `convertOperationToMCPMethod` (lines
509–544): multipart form content first, else JSON content; an object body
is merged in, a non-object JSON body is nested under a synthetic required
`body` property. -/
def bodyGoMCP (doc : Document) (requestBody : Option BodyOrRef)
    (props : List (String × JSchema)) (req : List String) (st : St) :
    List (String × JSchema) × List String × St :=
  match requestBody with
  | none => (props, req, st)
  | some b =>
    match resolveRequestBody doc b with
    | none => (props, req, st)
    | some bodyObj =>
      match bodyObj.content with
      | none => (props, req, st)
      | some content =>
        match (lookupA content "multipart/form-data").bind (·.schema) with
        | some fs =>
          let (formSchema, c) := convertOpenApiSchemaToJsonSchema doc fs [] false st
          if formSchema.type = some "object" ∧ formSchema.properties.isSome then
            let (props', req') := mergeObjectBody formSchema props req
            (props', req', c.st)
          else (props, req, c.st)
        | none =>
          match (lookupA content "application/json").bind (·.schema) with
          | some bs =>
            let (bodySchema, c) := convertOpenApiSchemaToJsonSchema doc bs [] false st
            if bodySchema.type = some "object" ∧ bodySchema.properties.isSome then
              let (props', req') := mergeObjectBody bodySchema props req
              (props', req', c.st)
            else
              (setA props "body" bodySchema, req ++ ["body"], c.st)
          | none => (props, req, st)

/-- The request-body handling of `convertOperationToJsonSchema` (lines
396–411): JSON content only, merged only when the body schema is an object
with properties; anything else is dropped. -/
def bodyGoJson (doc : Document) (requestBody : Option BodyOrRef)
    (props : List (String × JSchema)) (req : List String) (st : St) :
    List (String × JSchema) × List String × St :=
  match requestBody with
  | none => (props, req, st)
  | some b =>
    match resolveRequestBody doc b with
    | none => (props, req, st)
    | some bodyObj =>
      match bodyObj.content with
      | none => (props, req, st)
      | some content =>
        match (lookupA content "application/json").bind (·.schema) with
        | some bs =>
          let (bodySchema, c) := convertOpenApiSchemaToJsonSchema doc bs [] false st
          if bodySchema.type = some "object" ∧ bodySchema.properties.isSome then
            let (props', req') := mergeObjectBody bodySchema props req
            (props', req', c.st)
          else (props, req, c.st)
        | none => (props, req, st)

/-- Assemble the flat object input schema: `properties` always present,
`required` deleted when empty (lines 484–488 and 566–568). -/
def assembleInputSchema (props : List (String × JSchema)) (req : List String) :
    JSchema :=
  JSchema.mk none (some "object") none none none none
    (some (JProps.ofList props)) (if req.isEmpty then none else some req)
    none none none none none none

/-- Attach selective defs to a schema when the builder returns any. -/
def attachDefs (s : JSchema) : Option (List (String × JSchema)) → JSchema
  | some ds => s.withDefs (some (JProps.ofList ds))
  | none => s

/-- `extractResponseType(responses)` (lines 584–615). -/
def extractResponseType (doc : Document)
    (responses : Option (List (String × RespOrRef))) (st : St) :
    Option JSchema × St :=
  let successResponse :=
    match responses with
    | none => none
    | some rs =>
      (lookupA rs "200").or ((lookupA rs "201").or
        ((lookupA rs "202").or (lookupA rs "204")))
  match successResponse with
  | none => (none, st)
  | some rr =>
    match resolveResponse doc rr with
    | none => (none, st)
    | some responseObj =>
      match responseObj.content with
      | none => (none, st)
      | some content =>
        match (lookupA content "application/json").bind (·.schema) with
        | some s =>
          let (returnSchema, c) := convertOpenApiSchemaToJsonSchema doc s [] false st
          let (selectiveDefs, st₂) := buildSelectiveDefs doc returnSchema c.st
          let r₁ := attachDefs returnSchema selectiveDefs
          let r₂ :=
            if truthyS responseObj.description && !(truthyS r₁.description) then
              r₁.withDescription responseObj.description
            else r₁
          (some r₂, st₂)
        | none =>
          if (lookupA content "image/png").isSome ∨
              (lookupA content "image/jpeg").isSome then
            (some (JSchema.mk none (some "string") (some "binary")
              (some (if truthyS responseObj.description then
                responseObj.description.getD "" else ""))
              none none none none none none none none none none), st)
          else
            (some (JSchema.mk none (some "string") none
              (some (if truthyS responseObj.description then
                responseObj.description.getD "" else ""))
              none none none none none none none none none none), st)

/-- The `console.warn` of line 477. -/
def warnMsg (method path : String) : String :=
  "Operation without operationId at " ++ method ++ " " ++ path

/-- The error-responses description suffix (lines 547–560): every response
whose code starts with `4` or `5` is resolved and rendered as
`code: description`. -/
def buildDescription (doc : Document) (operation : Operation) : String :=
  let base := orElseS operation.summary operation.description
  match operation.responses with
  | none => base
  | some rs =>
    let errorResponses := (rs.filter
        (fun p => startsWithS p.1 "4" || startsWithS p.1 "5")).map
      (fun p => p.1 ++ ": " ++
        (match resolveResponse doc p.2 with
         | some ro => if truthyS ro.description then ro.description.getD "" else ""
         | none => ""))
    if errorResponses.isEmpty then base
    else base ++ "\nError Responses:\n" ++ String.intercalate "\n" errorResponses

/-- `convertOperationToMCPMethod(operation, method, path)` (lines
475–582). -/
def convertOperationToMCPMethod (doc : Document) (operation : Operation)
    (method path : String) (st : St) : Option NewToolMethod × St :=
  match operation.operationId with
  | none => (none, { st with log := st.log ++ [warnMsg method path] })
  | some methodName =>
    let (props₁, req₁, st₁) :=
      paramsGo doc (operation.parameters.getD []) [] [] st
    let (props₂, req₂, st₂) :=
      bodyGoMCP doc operation.requestBody props₁ req₁ st₁
    let description := buildDescription doc operation
    let (returnSchema, st₃) := extractResponseType doc operation.responses st₂
    let inputSchema₀ := assembleInputSchema props₂ req₂
    let (selectiveDefs, st₄) := buildSelectiveDefs doc inputSchema₀ st₃
    (some ⟨methodName, description, attachDefs inputSchema₀ selectiveDefs,
      returnSchema⟩, st₄)

/-- `convertOperationToJsonSchema(operation, method, path)` (lines
365–425). -/
def convertOperationToJsonSchema (doc : Document) (operation : Operation)
    (st : St) : JSchema × St :=
  let (props₁, req₁, st₁) :=
    paramsGo doc (operation.parameters.getD []) [] [] st
  let (props₂, req₂, st₂) :=
    bodyGoJson doc operation.requestBody props₁ req₁ st₁
  let schema₀ := assembleInputSchema props₂ req₂
  let (selectiveDefs, st₃) := buildSelectiveDefs doc schema₀ st₂
  (attachDefs schema₀ selectiveDefs, st₃)

/-! ## Names, filtering and the three projections -/

/-- Decimal digits of a natural number, with structural fuel (`n + 1` is
always enough); models JavaScript `Number.prototype.toString`. -/
def natToDecGo : Nat → Nat → List Char
  | 0, _ => []
  | fuel + 1, n =>
    if n < 10 then [Nat.digitChar n]
    else natToDecGo fuel (n / 10) ++ [Nat.digitChar (n % 10)]

/-- Decimal rendering of a natural number. -/
def natToDec (n : Nat) : String :=
  String.mk (natToDecGo (n + 1) n)

/-- `padStart(4, '0')`. -/
def padStart4 (s : String) : String :=
  if s.length < 4 then String.mk (List.replicate (4 - s.length) '0') ++ s else s

/-- `generateUniqueSuffix()`: increment the instance counter and render it
zero-padded to width four. -/
def generateUniqueSuffix (st : St) : String × St :=
  let c := st.counter + 1
  (padStart4 (natToDec c), { st with counter := c })

/-- `ensureUniqueName(name)`: names of at most 64 characters pass through
untouched; longer ones are truncated to `64 − 5` characters and given a
fresh `-` suffix. -/
def ensureUniqueName (name : String) (st : St) : String × St :=
  if name.length ≤ 64 then (name, st)
  else
    let truncatedName := sliceTo name (64 - 5)
    let (uniqueSuffix, st') := generateUniqueSuffix st
    (truncatedName ++ "-" ++ uniqueSuffix, st')

/-- `getDescription(description)`: prepend the branding prefix for the
Notion API document. -/
def getDescription (doc : Document) (description : String) : String :=
  if doc.infoTitle = "Notion API" then "Notion | " ++ description
  else description

/-- `method.toLowerCase()`. -/
def toLowerS (s : String) : String :=
  String.mk (s.data.map Char.toLower)

/-- `isOperation(method, operation)`: the method name, lower-cased, is one
of the five handled verbs; the operation value itself is not inspected. -/
def isOperation (method : String) : Bool :=
  ["get", "post", "put", "delete", "patch"].contains (toLowerS method)

/-- The filter configuration.  Modelled from the spec: the filter
collaborator is an external predicate over the operation identifier and
the path (its source, `../types/filter-config`, is not part of this
repository snapshot). -/
structure ToolFilterConfig where
  pred : String → String → Bool

/-- Modelled from the spec: `shouldIncludeOperation(operationId, path,
config)`, invoked once per candidate operation; absent configuration
includes everything. -/
def shouldIncludeOperation (opId path : String) :
    Option ToolFilterConfig → Bool
  | none => true
  | some c => c.pred opId path

/-- The `{ ...operation, method, path }` spread stored in the lookup and
zip maps. -/
structure OpLook where
  op : Operation
  method : String
  path : String

/-- The registry output of `convertToMCPTools`: the `API` method list, the
operation lookup and the zip pairing. -/
structure MCPOut where
  methods : List NewToolMethod
  openApiLookup : List (String × OpLook)
  zip : List (String × (OpLook × NewToolMethod))

/-- The per-path-item loop of `convertToMCPTools` (lines 278–295). -/
def mcpMethodsGo (doc : Document) (cfg : Option ToolFilterConfig)
    (path : String) :
    List (String × Operation) → MCPOut → St → MCPOut × St
  | [], acc, st => (acc, st)
  | (method, operation) :: rest, acc, st =>
    if !(isOperation method) then mcpMethodsGo doc cfg path rest acc st
    else if (match operation.operationId with
      | some id => !(shouldIncludeOperation id path cfg)
      | none => false) then mcpMethodsGo doc cfg path rest acc st
    else
      match convertOperationToMCPMethod doc operation method path st with
      | (none, st') => mcpMethodsGo doc cfg path rest acc st'
      | (some mcpMethod, st') =>
        let (uniqueName, st'') := ensureUniqueName mcpMethod.name st'
        let m : NewToolMethod :=
          { mcpMethod with
            name := uniqueName
            description := getDescription doc mcpMethod.description }
        let key := "API" ++ "-" ++ uniqueName
        let look : OpLook := ⟨operation, method, path⟩
        mcpMethodsGo doc cfg path rest
          { methods := acc.methods ++ [m]
            openApiLookup := setA acc.openApiLookup key look
            zip := setA acc.zip key (look, m) } st''

/-- The outer path loop of `convertToMCPTools`. -/
def mcpPathsGo (doc : Document) (cfg : Option ToolFilterConfig) :
    List (String × Option (List (String × Operation))) → MCPOut → St →
      MCPOut × St
  | [], acc, st => (acc, st)
  | (_, none) :: rest, acc, st => mcpPathsGo doc cfg rest acc st
  | (path, some pathItem) :: rest, acc, st =>
    let (acc', st') := mcpMethodsGo doc cfg path pathItem acc st
    mcpPathsGo doc cfg rest acc' st'

/-- `convertToMCPTools()` (lines 263–299). -/
def convertToMCPTools (doc : Document) (cfg : Option ToolFilterConfig)
    (st : St) : MCPOut × St :=
  mcpPathsGo doc cfg doc.paths ⟨[], [], []⟩ st

/-- An OpenAI `ChatCompletionTool`; the source reads
`operation.operationId!` without a presence check, so the name is the raw
optional identifier. -/
structure OpenAITool where
  name : Option String
  description : String
  parameters : JSchema

/-- The per-path-item loop of `convertToOpenAITools` (lines 310–323). -/
def openAIMethodsGo (doc : Document) :
    List (String × Operation) → List OpenAITool → St →
      List OpenAITool × St
  | [], acc, st => (acc, st)
  | (method, operation) :: rest, acc, st =>
    if !(isOperation method) then openAIMethodsGo doc rest acc st
    else
      let (parameters, st') := convertOperationToJsonSchema doc operation st
      let tool : OpenAITool :=
        { name := operation.operationId
          description := getDescription doc
            (orElseS operation.summary operation.description)
          parameters := parameters }
      openAIMethodsGo doc rest (acc ++ [tool]) st'

/-- The outer path loop of `convertToOpenAITools`. -/
def openAIPathsGo (doc : Document) :
    List (String × Option (List (String × Operation))) → List OpenAITool →
      St → List OpenAITool × St
  | [], acc, st => (acc, st)
  | (_, none) :: rest, acc, st => openAIPathsGo doc rest acc st
  | (_, some pathItem) :: rest, acc, st =>
    let (acc', st') := openAIMethodsGo doc pathItem acc st
    openAIPathsGo doc rest acc' st'

/-- `convertToOpenAITools()` (lines 304–327). -/
def convertToOpenAITools (doc : Document) (st : St) :
    List OpenAITool × St :=
  openAIPathsGo doc doc.paths [] st

/-- An Anthropic `Tool`. -/
structure AnthropicTool where
  name : Option String
  description : String
  input_schema : JSchema

/-- The per-path-item loop of `convertToAnthropicTools` (lines 338–347). -/
def anthropicMethodsGo (doc : Document) :
    List (String × Operation) → List AnthropicTool → St →
      List AnthropicTool × St
  | [], acc, st => (acc, st)
  | (method, operation) :: rest, acc, st =>
    if !(isOperation method) then anthropicMethodsGo doc rest acc st
    else
      let (parameters, st') := convertOperationToJsonSchema doc operation st
      let tool : AnthropicTool :=
        { name := operation.operationId
          description := getDescription doc
            (orElseS operation.summary operation.description)
          input_schema := parameters }
      anthropicMethodsGo doc rest (acc ++ [tool]) st'

/-- The outer path loop of `convertToAnthropicTools`. -/
def anthropicPathsGo (doc : Document) :
    List (String × Option (List (String × Operation))) → List AnthropicTool →
      St → List AnthropicTool × St
  | [], acc, st => (acc, st)
  | (_, none) :: rest, acc, st => anthropicPathsGo doc rest acc st
  | (_, some pathItem) :: rest, acc, st =>
    let (acc', st') := anthropicMethodsGo doc pathItem acc st
    anthropicPathsGo doc rest acc' st'

/-- `convertToAnthropicTools()` (lines 332–352). -/
def convertToAnthropicTools (doc : Document) (st : St) :
    List AnthropicTool × St :=
  anthropicPathsGo doc doc.paths [] st

/-- One full conversion run on a single converter instance: the registry
projection, then the function-call list, then the tool-use list, threading
the instance state. -/
def runAll (doc : Document) (cfg : Option ToolFilterConfig) (st : St) :
    MCPOut × List OpenAITool × List AnthropicTool :=
  let (a, st₁) := convertToMCPTools doc cfg st
  let (b, st₂) := convertToOpenAITools doc st₁
  let (c, _) := convertToAnthropicTools doc st₂
  (a, b, c)

/-! ## Evolution of the converter state

`convertGo` only ever grows the visited set, and never touches the name
counter or the memoized component table. -/

/-- The state relation preserved by every converter step: the visited set
grows, the counter and the component memo are untouched. -/
def StEvol (c c' : CSt) : Prop :=
  (∀ r, r ∈ c.vis → r ∈ c'.vis) ∧ c'.st.counter = c.st.counter ∧
    c'.st.allComps = c.st.allComps

/-! ## Concrete documents used to instantiate and to refute claims -/

/-- An empty document. -/
def emptyDoc : Document := ⟨"T", [], [], []⟩

/-- A two-node component cycle: `A` references `B` and `B` references
`A`. -/
def cycleDoc : Document :=
  ⟨"T", [],
    [("A", .ref "#/components/schemas/B" none),
     ("B", .ref "#/components/schemas/A" none)], []⟩

/-- An 80-character operation identifier. -/
def longIdX : String := String.mk (List.replicate 80 'x')

/-- A second, distinct 80-character operation identifier. -/
def longIdY : String := String.mk (List.replicate 80 'y')

/-- An operation carrying only an identifier. -/
def bareOp (id : String) : Operation := ⟨some id, none, none, none, none, none⟩

/-- Two over-length operations in one run. -/
def twoLongDoc : Document :=
  ⟨"T", [("/a", some [("get", bareOp longIdX)]),
         ("/b", some [("get", bareOp longIdY)])], [], []⟩

/-- One over-length operation plus two operations sharing the identifier
`dup`. -/
def dupDoc : Document :=
  ⟨"T", [("/a", some [("get", bareOp longIdX)]),
         ("/b", some [("get", bareOp "dup"), ("post", bareOp "dup")])], [], []⟩

/-- An operation with one `404` error response. -/
def errOp : Operation :=
  ⟨some "op", none, none, none, none,
    some [("404", .item ⟨some "bad", none⟩)]⟩

/-- A document whose only operation has an error response. -/
def errDoc : Document := ⟨"T", [("/a", some [("get", errOp)])], [], []⟩

/-- A document with one non-components-prefixed pointer target. -/
def extraDoc : Document :=
  ⟨"T", [], [],
    [("#/definitions/X",
      .schemaT (.node (some "string") none (some "from extra") none none
        none none none none none none none))]⟩

/-! ## C10: parameters that fail to resolve or lack a schema -/

/-- A parameter that resolves and carries a schema, to exercise the
parameter loop. -/
def goodParam : ParamOrRef :=
  .item ⟨"q", some "the query", true,
    some (.node (some "string") none none none none none none none none
      none none none)⟩

/-- A parameter given by a pointer that resolves to nothing. -/
def badParamRef : ParamOrRef := .ref "#/components/parameters/missing"

/-- The parameters the loop of `convertOperationToMCPMethod` skips: those
failing `paramObj && paramObj.schema` — an unresolvable (or nameless)
reference, or a resolved parameter object without a `schema` field. -/
def skippedParam (doc : Document) (param : ParamOrRef) : Prop :=
  resolveParameter doc param = none ∨
    ∃ p, resolveParameter doc param = some p ∧ p.schema = none

/-! ## C1: the name counter and the length bound of registry names -/

/-- The number of path-item entries a conversion run iterates over (an
upper bound on how many names can be uniquified in one run). -/
def opCountPaths : List (String × Option (List (String × Operation))) → Nat
  | [] => 0
  | (_, none) :: rest => opCountPaths rest
  | (_, some pi) :: rest => pi.length + opCountPaths rest

/-- The number of path-item entries of a document. -/
def opCount (doc : Document) : Nat := opCountPaths doc.paths

/-! ## C3: pointer names, reachability and the closure collector -/

/-- The name a `$ref` field contributes: a `#/$defs/` pointer, stripped. -/
def refNames : Option String → List String
  | some r => if startsWithS r defsPrefix then [stripPre r defsPrefix] else []
  | none => []

mutual
/-- The `#/$defs/` pointer names in the positions the collector walks:
`$ref`, `properties`, `items`, `additionalProperties`, `oneOf`, `anyOf`
and `allOf`, in walk order (a nested `$defs` is not walked, matching the
collector). -/
def ptrNames : JSchema → List String
  | .mk ref _ _ _ _ _ props _ addP items one anyO allO _ =>
    refNames ref ++
    ((match props with | some ps => ptrNamesP ps | none => []) ++
    ((match items with
      | some (.inl t) => ptrNames t
      | some (.inr l) => ptrNamesL l
      | none => []) ++
    ((match addP with | some (.inr t) => ptrNames t | _ => []) ++
    ((match one with | some l => ptrNamesL l | none => []) ++
    ((match anyO with | some l => ptrNamesL l | none => []) ++
      (match allO with | some l => ptrNamesL l | none => []))))))

/-- Pointer names under each property value. -/
def ptrNamesP : JProps → List String
  | .nil => []
  | .cons _ v rest => ptrNames v ++ ptrNamesP rest

/-- Pointer names under each list element. -/
def ptrNamesL : JList → List String
  | .nil => []
  | .cons v rest => ptrNames v ++ ptrNamesL rest
end


/-- Pointer names of an optional `properties` field. -/
def ptrNamesPO : Option JProps → List String
  | some ps => ptrNamesP ps
  | none => []

/-- Pointer names of an optional composition list. -/
def ptrNamesLO : Option JList → List String
  | some l => ptrNamesL l
  | none => []

/-- Pointer names of an `additionalProperties` field. -/
def ptrNamesAO : Option (Sum Bool JSchema) → List String
  | some (.inr t) => ptrNames t
  | _ => []

/-- Pointer names of an `items` field. -/
def ptrNamesItm : Option (Sum JSchema JList) → List String
  | some (.inl t) => ptrNames t
  | some (.inr l) => ptrNamesL l
  | none => []

/-- Option-level output sizes, for the collector's budget arithmetic. -/
def jpsizeO : Option JProps → Nat
  | some ps => jpsize ps
  | none => 0

def jlsizeO : Option JList → Nat
  | some l => jlsize l
  | none => 0

def jsizeAO : Option (Sum Bool JSchema) → Nat
  | some (.inr t) => jsize t
  | _ => 0

def jsizeItm : Option (Sum JSchema JList) → Nat
  | some (.inl t) => jsize t
  | some (.inr l) => jlsize l
  | none => 0

/-- Reachability of a defs name from a list `P` of root pointer names,
chasing pointers through the bodies table `T` assigns to reached names. -/
inductive ReachP (T : List (String × JSchema)) (P : List String) :
    String → Prop
  | base {n : String} : n ∈ P → ReachP T P n
  | step {m n : String} {b : JSchema} : ReachP T P m →
      lookupA T m = some b → n ∈ ptrNames b → ReachP T P n

/-- The component table a state answers with (and keeps answering with). -/
def GInv (doc : Document) (T : List (String × JSchema)) (st : St) : Prop :=
  (getAllComponentSchemas doc st).1 = T

/-- The collection fuel chargeable to name discovery from collected set
`c`. -/
def collectBudget (T : List (String × JSchema)) (c : List String) : Nat :=
  namesToCollect (T.map (·.1)) c * (1 + maxBodySize T)

/-- What a collector step with root pointer names `P` from state `a`
guarantees when the component table is `T`: the collected list only grows,
the table stays `T`, every collected name is old or reachable from `P`,
every newly collected name with a table body has every table-present
pointer of that body collected, and every table-present name of `P` is
collected. -/
def COut (doc : Document) (T : List (String × JSchema)) (P : List String)
    (a r : List String × St) : Prop :=
  (∀ n ∈ a.1, n ∈ r.1) ∧ GInv doc T r.2 ∧
  (∀ n ∈ r.1, n ∈ a.1 ∨ ReachP T P n) ∧
  (∀ n ∈ r.1, n ∉ a.1 → ∀ b, lookupA T n = some b →
    ∀ m ∈ ptrNames b, (lookupA T m).isSome → m ∈ r.1) ∧
  (∀ n ∈ P, (lookupA T n).isSome → n ∈ r.1)

/-- A document with one component `A` of type string. -/
def c3docA : Document :=
  ⟨"T", [], [("A", .node (some "string") none none none none none none none
    none none none none)], []⟩

/-- A bare local pointer to `A`. -/
def c3schemaA : JSchema :=
  .mk (some "#/$defs/A") none none none none none none none none none none
    none none none

/-- The converted body of component `A`. -/
def c3bodyA : JSchema :=
  .mk none (some "string") none none none none none none none none none
    none none none

def c3defsA : List (String × JSchema) := [("A", c3bodyA)]

/-- A schema pointing at the existing `A` and at a missing `X`. -/
def c3schemaAX : JSchema :=
  .mk none none none none none none
    (some (.cons "p" c3schemaA (.cons "q"
      (.mk (some "#/$defs/X") none none none none none none none none none
        none none none none) .nil)))
    none none none none none none none

/-! ## Theorems -/

theorem length_stripPre (s p : String) :
    (stripPre s p).length = s.length - p.length := by
  show (s.data.drop p.data.length).length = s.data.length - p.data.length
  exact List.length_drop _ _

theorem length_sliceTo (s : String) (n : Nat) :
    (sliceTo s n).length = min n s.length := by
  show (s.data.take n).length = min n s.data.length
  exact List.length_take _ _

theorem startsWithS_self_append (p r : String) :
    startsWithS (p ++ r) p = true := by
  rw [startsWithS, List.isPrefixOf_iff_prefix, String.data_append]
  exact List.prefix_append _ _

theorem stripPre_self_append (p r : String) :
    stripPre (p ++ r) p = r := by
  rw [stripPre, String.data_append, List.drop_left]

/-- A string that starts with `p` is `p` followed by the rest. -/
theorem eq_append_of_startsWithS {s p : String} (h : startsWithS s p = true) :
    s = p ++ stripPre s p := by
  have hpre : p.data <+: s.data := by
    simpa [startsWithS, List.isPrefixOf_iff_prefix] using h
  rcases hpre with ⟨t, ht⟩
  have hd : (p ++ stripPre s p).data = s.data := by
    simp [stripPre, String.data_append, ← ht]
  cases s; cases p
  simpa [String.ext_iff] using hd.symm

theorem osize_ref (r : String) (d : Option String) :
    osize (.ref r d) = 1 := rfl

theorem opsize_cons (k : String) (v : OpenSchema) (rest : OProps) :
    opsize (.cons k v rest) = 1 + osize v + opsize rest := rfl

theorem olsize_cons (v : OpenSchema) (rest : OList) :
    olsize (.cons v rest) = 1 + osize v + olsize rest := rfl

theorem osize_node (ty fmt d : Option String) (en : Option (List String))
    (df : Option String) (props : Option OProps) (req : Option (List String))
    (addP : Option (Sum Bool OpenSchema)) (items : Option OpenSchema)
    (one anyO allO : Option OList) :
    osize (.node ty fmt d en df props req addP items one anyO allO) =
      1 + opsizeO props + osizeAO addP + osizeItm items + olsizeO one +
        olsizeO anyO + olsizeO allO := by
  rcases props with _ | ps <;> rcases addP with _ | (b | s) <;>
    rcases items with _ | it <;> rcases one with _ | l₁ <;>
    rcases anyO with _ | l₂ <;> rcases allO with _ | l₃ <;>
    rfl

theorem osize_pos (s : OpenSchema) : 1 ≤ osize s := by
  cases s with
  | ref r d => rw [osize_ref]
  | node ty fmt d en df props req addP items one anyO allO =>
    rw [osize_node]
    omega

/-! ## Basic lemmas about lookups and the resolution budget -/

theorem lookupA_mem {α : Type} {l : List (String × α)} {k : String} {v : α}
    (h : lookupA l k = some v) : k ∈ l.map Prod.fst := by
  rcases Option.map_eq_some'.mp h with ⟨pr, hfind, _⟩
  have hmem := List.mem_of_find?_eq_some hfind
  have hkey : pr.1 = k := by simpa using List.find?_some hfind
  exact List.mem_map.mpr ⟨pr, hmem, hkey⟩

/-- A successful lookup pins down a member pair with the looked-up key. -/
theorem lookupA_some_mem {α : Type} {l : List (String × α)} {k : String}
    {v : α} (h : lookupA l k = some v) : (k, v) ∈ l := by
  rcases Option.map_eq_some'.mp h with ⟨pr, hfind, hv⟩
  have hmem := List.mem_of_find?_eq_some hfind
  have hkey : pr.1 = k := by simpa using List.find?_some hfind
  have : pr = (k, v) := by
    cases pr
    simp only [Prod.mk.injEq]
    exact ⟨hkey, hv⟩
  rwa [this] at hmem

/-- Keys of a list are preserved by `setA` when the key is present, and
extended by it otherwise. -/
theorem setA_map_fst {α : Type} (l : List (String × α)) (k : String) (v : α) :
    (setA l k v).map Prod.fst =
      if (l.find? (fun p => p.1 == k)).isSome then l.map Prod.fst
      else l.map Prod.fst ++ [k] := by
  by_cases h : (l.find? (fun p => p.1 == k)).isSome
  · simp only [setA, h, if_true]
    rw [List.map_map]
    congr 1
    funext p
    by_cases hp : p.1 == k
    · have : p.1 = k := by simpa using hp
      simp [Function.comp, hp, this]
    · simp [Function.comp, hp]
  · simp [setA, h]

theorem length_filter_le_of_imp {α : Type} (l : List α) (p q : α → Bool)
    (h : ∀ a, p a = true → q a = true) :
    (l.filter p).length ≤ (l.filter q).length := by
  induction l with
  | nil => simp
  | cons x rest ih =>
    by_cases hx : p x = true
    · simp [List.filter, hx, h x hx, Nat.succ_le_succ ih]
    · by_cases hq : q x = true
      · simp only [List.filter, hx, hq, Bool.false_eq_true, if_false, if_true]
        exact Nat.le_succ_of_le ih
      · simp only [List.filter, hx, hq, Bool.false_eq_true, if_false]
        exact ih

theorem length_filter_lt_of_missing {α : Type} (l : List α) (p q : α → Bool)
    (h : ∀ a, p a = true → q a = true) (a : α) (ha : a ∈ l)
    (hqa : q a = true) (hpa : p a = false) :
    (l.filter p).length < (l.filter q).length := by
  induction l with
  | nil => simp at ha
  | cons x rest ih =>
    rcases List.mem_cons.mp ha with rfl | hmem
    · simp only [List.filter, hpa, hqa]
      exact Nat.lt_succ_of_le (length_filter_le_of_imp rest p q h)
    · by_cases hx : p x = true
      · simp [List.filter, hx, h x hx, Nat.succ_lt_succ (ih hmem)]
      · by_cases hqx : q x = true
        · simp only [List.filter, hx, hqx, Bool.false_eq_true, if_false, if_true]
          exact Nat.lt_succ_of_lt (ih hmem)
        · simp only [List.filter, hx, hqx, Bool.false_eq_true, if_false]
          exact ih hmem

/-- Growing the visited set cannot increase the resolution budget. -/
theorem toResolve_mono (doc : Document) {vis vis' : List String}
    (h : ∀ r, r ∈ vis → r ∈ vis') :
    toResolve doc vis' ≤ toResolve doc vis := by
  apply length_filter_le_of_imp
  intro a ha
  simp only [decide_eq_true_eq] at ha ⊢
  exact fun hmem => ha (h a hmem)

/-- Visiting a resolvable pointer strictly shrinks the budget. -/
theorem toResolve_lt (doc : Document) {vis : List String} {r : String}
    (hres : r ∈ resolvableRefs doc) (hnot : r ∉ vis) :
    toResolve doc (r :: vis) < toResolve doc vis := by
  apply length_filter_lt_of_missing _ _ _
    (fun a ha => ?_) r hres (by simpa using hnot) (by simp)
  simp only [decide_eq_true_eq] at ha ⊢
  exact fun hmem => ha (List.mem_cons_of_mem _ hmem)

/-- A successful walk only reaches pointers in `resolvableRefs`. -/
theorem walkDoc_mem_resolvable {doc : Document} {r : String} {t : RefTarget}
    (h : walkDoc doc r = some t) : r ∈ resolvableRefs doc := by
  unfold walkDoc at h
  split at h
  case isTrue hpre =>
    split at h
    case isTrue => exact absurd h (by simp)
    case isFalse =>
      rcases Option.map_eq_some'.mp h with ⟨s, hs, _⟩
      have hk := lookupA_mem hs
      have heq := eq_append_of_startsWithS hpre
      unfold resolvableRefs
      apply List.mem_append_left
      rcases List.mem_map.mp hk with ⟨p, hp, hpk⟩
      exact List.mem_map.mpr ⟨p, hp, by rw [hpk, ← heq]⟩
  case isFalse =>
    unfold resolvableRefs
    exact List.mem_append_right _ (lookupA_mem h)

/-- Any element of a list is at most `maxList` of it. -/
theorem le_maxList {l : List Nat} {n : Nat} (h : n ∈ l) : n ≤ maxList l := by
  induction l with
  | nil => simp at h
  | cons x rest ih =>
    rcases List.mem_cons.mp h with rfl | hmem
    · exact Nat.le_max_left _ _
    · exact Nat.le_trans (ih hmem) (Nat.le_max_right _ _)

/-- A successful walk reaches a target no bigger than `maxTargetSize`. -/
theorem walkDoc_targetSize_le {doc : Document} {r : String} {t : RefTarget}
    (h : walkDoc doc r = some t) : osize t.asSchema ≤ maxTargetSize doc := by
  unfold walkDoc at h
  split at h
  case isTrue hpre =>
    split at h
    case isTrue => exact absurd h (by simp)
    case isFalse =>
      rcases Option.map_eq_some'.mp h with ⟨s, hs, hst⟩
      have hmem := lookupA_some_mem hs
      apply le_maxList
      apply List.mem_append_left
      refine List.mem_map.mpr ⟨_, hmem, ?_⟩
      rw [← hst]
      rfl
  case isFalse =>
    have hmem := lookupA_some_mem h
    apply le_maxList
    apply List.mem_append_right
    exact List.mem_map.mpr ⟨_, hmem, rfl⟩

/-- What a successful `internalResolveRef` tells us. -/
theorem internalResolveRef_some {doc : Document} {r : String}
    {vis vis' : List String} {t : RefTarget}
    (h : internalResolveRef doc r vis = (some t, vis')) :
    walkDoc doc r = some t ∧ r ∈ resolvableRefs doc ∧ r ∉ vis ∧
      vis' = r :: vis := by
  unfold internalResolveRef at h
  split at h
  case isTrue => exact absurd h (by simp)
  case isFalse =>
    split at h
    case isTrue => exact absurd h (by simp)
    case isFalse h2 =>
      split at h
      case h_1 => exact absurd h (by simp)
      case h_2 t' hw =>
        have ht : t' = t ∧ r :: vis = vis' := by
          constructor
          · exact Option.some.inj (congrArg Prod.fst h)
          · exact congrArg Prod.snd h
        refine ⟨?_, ?_, h2, ht.2.symm⟩
        · rw [hw, ht.1]
        · exact walkDoc_mem_resolvable (t := t) (by rw [hw, ht.1])

/-- A failed `internalResolveRef` leaves the visited set unchanged. -/
theorem internalResolveRef_none {doc : Document} {r : String}
    {vis vis' : List String}
    (h : internalResolveRef doc r vis = (none, vis')) : vis' = vis := by
  unfold internalResolveRef at h
  split at h
  case isTrue => exact (congrArg Prod.snd h).symm
  case isFalse =>
    split at h
    case isTrue => exact (congrArg Prod.snd h).symm
    case isFalse =>
      split at h
      case h_1 => exact (congrArg Prod.snd h).symm
      case h_2 => exact absurd (congrArg Prod.fst h) (by simp)

theorem StEvol.refl (c : CSt) : StEvol c c :=
  ⟨fun _ h => h, rfl, rfl⟩

theorem StEvol.trans {a b c : CSt} (h₁ : StEvol a b) (h₂ : StEvol b c) :
    StEvol a c :=
  ⟨fun r hr => h₂.1 r (h₁.1 r hr), h₂.2.1.trans h₁.2.1, h₂.2.2.trans h₁.2.2⟩

theorem StEvol.logAdd (c : CSt) (m : String) : StEvol c (c.logAdd m) :=
  ⟨fun _ h => h, rfl, rfl⟩

theorem StEvol.cacheSet (c : CSt) (k : String) (v : JSchema) :
    StEvol c (c.cacheSet k v) :=
  ⟨fun _ h => h, rfl, rfl⟩

theorem convertListWith_evol {f : OpenSchema → CSt → JSchema × CSt}
    (hf : ∀ s c, StEvol c (f s c).2) :
    ∀ (l : OList) (c : CSt), StEvol c (convertListWith f l c).2
  | .nil, c => .refl c
  | .cons v rest, c => by
    simp only [convertListWith]
    exact (hf v c).trans (convertListWith_evol hf rest (f v c).2)

theorem convertPropsWith_evol {f : OpenSchema → CSt → JSchema × CSt}
    (hf : ∀ s c, StEvol c (f s c).2) :
    ∀ (l : OProps) (c : CSt), StEvol c (convertPropsWith f l c).2
  | .nil, c => .refl c
  | .cons _ v rest, c => by
    simp only [convertPropsWith]
    exact (hf v c).trans (convertPropsWith_evol hf rest (f v c).2)

theorem convertPropsStep_evol {f : OpenSchema → CSt → JSchema × CSt}
    (hf : ∀ s c, StEvol c (f s c).2) (ty : Option String)
    (props : Option OProps) (c : CSt) :
    StEvol c (convertPropsStep f ty props c).2 := by
  unfold convertPropsStep
  split
  · cases props with
    | some ps => simpa using convertPropsWith_evol hf ps c
    | none => exact .refl c
  · exact .refl c

theorem convertAddPStep_evol {f : OpenSchema → CSt → JSchema × CSt}
    (hf : ∀ s c, StEvol c (f s c).2) (ty : Option String)
    (addP : Option (Sum Bool OpenSchema)) (c : CSt) :
    StEvol c (convertAddPStep f ty addP c).2 := by
  unfold convertAddPStep
  split
  · match addP with
    | some (Sum.inl false) => exact .refl c
    | some (Sum.inr t) => simpa using hf t c
    | some (Sum.inl true) => exact .refl c
    | none => exact .refl c
  · exact .refl c

theorem convertItemsStep_evol {f : OpenSchema → CSt → JSchema × CSt}
    (hf : ∀ s c, StEvol c (f s c).2) (ty : Option String)
    (items : Option OpenSchema) (c : CSt) :
    StEvol c (convertItemsStep f ty items c).2 := by
  unfold convertItemsStep
  split
  · cases items with
    | some it => simpa using hf it c
    | none => exact .refl c
  · exact .refl c

theorem convertCompStep_evol {f : OpenSchema → CSt → JSchema × CSt}
    (hf : ∀ s c, StEvol c (f s c).2) (l : Option OList) (c : CSt) :
    StEvol c (convertCompStep f l c).2 := by
  unfold convertCompStep
  cases l with
  | some l => simpa using convertListWith_evol hf l c
  | none => exact .refl c

/-- The converter only grows the visited set and never touches the name
counter or the component memo. -/
theorem convertGo_evol (doc : Document) (m : Bool) :
    ∀ (fuel : Nat) (s : OpenSchema) (c : CSt),
      StEvol c (convertGo doc m fuel s c).2 := by
  intro fuel
  induction fuel with
  | zero => intro s c; exact .refl c
  | succ fuel ih =>
    intro s c
    cases s with
    | ref r d =>
      rw [convertGo]
      split
      · exact .refl c
      · have hevol₁ : StEvol c (if m = true then c else c.logAdd (attemptMsg r)) := by
          split
          · exact .refl c
          · exact .logAdd c _
        set c₁ := if m = true then c else c.logAdd (attemptMsg r) with hc₁
        cases hcache : lookupA c₁.st.cache r with
        | some cached => simpa [hcache] using hevol₁
        | none =>
          simp only [hcache]
          cases hres : internalResolveRef doc r c₁.vis with
          | mk o vis' =>
            cases o with
            | none =>
              simp only
              have : vis' = c₁.vis := internalResolveRef_none hres
              refine hevol₁.trans (StEvol.trans ?_ (.logAdd _ _))
              exact ⟨fun x hx => by simp [this]; exact hx, rfl, rfl⟩
            | some t =>
              simp only
              have hv := (internalResolveRef_some hres).2.2.2
              have hstep : StEvol c₁ { c₁ with vis := vis' } :=
                ⟨fun x hx => by
                  simp only [hv, List.mem_cons]
                  exact Or.inr hx, rfl, rfl⟩
              exact hevol₁.trans (hstep.trans
                ((ih t.asSchema { c₁ with vis := vis' }).trans (.cacheSet _ r _)))
    | node ty fmt d en df props req addP items one anyO allO =>
      rw [convertGo]
      rcases h₁ : convertPropsStep (convertGo doc m fuel) ty props c with ⟨jp, c₁⟩
      dsimp only
      rcases h₂ : convertAddPStep (convertGo doc m fuel) ty addP c₁ with ⟨ja, c₂⟩
      dsimp only
      rcases h₃ : convertItemsStep (convertGo doc m fuel) ty items c₂ with ⟨ji, c₃⟩
      dsimp only
      rcases h₄ : convertCompStep (convertGo doc m fuel) one c₃ with ⟨j₄, c₄⟩
      dsimp only
      rcases h₅ : convertCompStep (convertGo doc m fuel) anyO c₄ with ⟨j₅, c₅⟩
      dsimp only
      rcases h₆ : convertCompStep (convertGo doc m fuel) allO c₅ with ⟨j₆, c₆⟩
      dsimp only
      have e₁ : StEvol c c₁ := by
        have := convertPropsStep_evol ih ty props c
        rwa [h₁] at this
      have e₂ : StEvol c₁ c₂ := by
        have := convertAddPStep_evol ih ty addP c₁
        rwa [h₂] at this
      have e₃ : StEvol c₂ c₃ := by
        have := convertItemsStep_evol ih ty items c₂
        rwa [h₃] at this
      have e₄ : StEvol c₃ c₄ := by
        have := convertCompStep_evol ih one c₃
        rwa [h₄] at this
      have e₅ : StEvol c₄ c₅ := by
        have := convertCompStep_evol ih anyO c₄
        rwa [h₅] at this
      have e₆ : StEvol c₅ c₆ := by
        have := convertCompStep_evol ih allO c₅
        rwa [h₆] at this
      exact e₁.trans (e₂.trans (e₃.trans (e₄.trans (e₅.trans e₆))))

/-! ## Fuel does not matter above the bound

`convertGo` computes the same answer for any two fuel amounts above
`convertBound`; hence `convertOpenApiSchemaToJsonSchema` is fuel-free. -/

theorem toResolve_le_of_evol (doc : Document) {c c' : CSt} (h : StEvol c c') :
    toResolve doc c'.vis ≤ toResolve doc c.vis :=
  toResolve_mono doc h.1

theorem convertPropsWith_congr (doc : Document)
    {f₁ f₂ : OpenSchema → CSt → JSchema × CSt} (B T₀ : Nat)
    (hstep : ∀ s' c', osize s' < B → toResolve doc c'.vis ≤ T₀ →
      f₁ s' c' = f₂ s' c')
    (hevol : ∀ s' c', StEvol c' (f₁ s' c').2) :
    ∀ (ps : OProps) (c : CSt), opsize ps ≤ B → toResolve doc c.vis ≤ T₀ →
      convertPropsWith f₁ ps c = convertPropsWith f₂ ps c
  | .nil, _, _, _ => rfl
  | .cons k v rest, c, hsz, hT => by
    have hv : f₁ v c = f₂ v c := by
      apply hstep v c ?_ hT
      have : 1 + osize v + opsize rest ≤ B := by
        simpa [opsize] using hsz
      omega
    have hrest : convertPropsWith f₁ rest (f₁ v c).2 =
        convertPropsWith f₂ rest (f₁ v c).2 := by
      apply convertPropsWith_congr doc B T₀ hstep hevol rest _ ?_ ?_
      · have : 1 + osize v + opsize rest ≤ B := by
          simpa [opsize] using hsz
        omega
      · exact le_trans (toResolve_le_of_evol doc (hevol v c)) hT
    simp only [convertPropsWith, ← hv, hrest]

theorem convertListWith_congr (doc : Document)
    {f₁ f₂ : OpenSchema → CSt → JSchema × CSt} (B T₀ : Nat)
    (hstep : ∀ s' c', osize s' < B → toResolve doc c'.vis ≤ T₀ →
      f₁ s' c' = f₂ s' c')
    (hevol : ∀ s' c', StEvol c' (f₁ s' c').2) :
    ∀ (l : OList) (c : CSt), olsize l ≤ B → toResolve doc c.vis ≤ T₀ →
      convertListWith f₁ l c = convertListWith f₂ l c
  | .nil, _, _, _ => rfl
  | .cons v rest, c, hsz, hT => by
    have hv : f₁ v c = f₂ v c := by
      apply hstep v c ?_ hT
      have : 1 + osize v + olsize rest ≤ B := by
        simpa [olsize] using hsz
      omega
    have hrest : convertListWith f₁ rest (f₁ v c).2 =
        convertListWith f₂ rest (f₁ v c).2 := by
      apply convertListWith_congr doc B T₀ hstep hevol rest _ ?_ ?_
      · have : 1 + osize v + olsize rest ≤ B := by
          simpa [olsize] using hsz
        omega
      · exact le_trans (toResolve_le_of_evol doc (hevol v c)) hT
    simp only [convertListWith, ← hv, hrest]

theorem convertPropsStep_congr (doc : Document)
    {f₁ f₂ : OpenSchema → CSt → JSchema × CSt} (B T₀ : Nat)
    (hstep : ∀ s' c', osize s' < B → toResolve doc c'.vis ≤ T₀ →
      f₁ s' c' = f₂ s' c')
    (hevol : ∀ s' c', StEvol c' (f₁ s' c').2)
    (ty : Option String) (props : Option OProps) (c : CSt)
    (hsz : opsizeO props ≤ B) (hT : toResolve doc c.vis ≤ T₀) :
    convertPropsStep f₁ ty props c = convertPropsStep f₂ ty props c := by
  unfold convertPropsStep
  split
  · cases props with
    | some ps =>
      dsimp only
      rw [convertPropsWith_congr doc B T₀ hstep hevol ps c
        (by simpa [opsizeO] using hsz) hT]
    | none => rfl
  · rfl

theorem convertAddPStep_congr (doc : Document)
    {f₁ f₂ : OpenSchema → CSt → JSchema × CSt} (B T₀ : Nat)
    (hstep : ∀ s' c', osize s' < B → toResolve doc c'.vis ≤ T₀ →
      f₁ s' c' = f₂ s' c')
    (ty : Option String) (addP : Option (Sum Bool OpenSchema)) (c : CSt)
    (hsz : osizeAO addP < B)
    (hT : toResolve doc c.vis ≤ T₀) :
    convertAddPStep f₁ ty addP c = convertAddPStep f₂ ty addP c := by
  unfold convertAddPStep
  split
  · match addP with
    | some (Sum.inl false) => rfl
    | some (Sum.inr t) =>
      have : f₁ t c = f₂ t c := hstep t c (by simpa [osizeAO] using hsz) hT
      simp only [this]
    | some (Sum.inl true) => rfl
    | none => rfl
  · rfl

theorem convertItemsStep_congr (doc : Document)
    {f₁ f₂ : OpenSchema → CSt → JSchema × CSt} (B T₀ : Nat)
    (hstep : ∀ s' c', osize s' < B → toResolve doc c'.vis ≤ T₀ →
      f₁ s' c' = f₂ s' c')
    (ty : Option String) (items : Option OpenSchema) (c : CSt)
    (hsz : osizeItm items < B)
    (hT : toResolve doc c.vis ≤ T₀) :
    convertItemsStep f₁ ty items c = convertItemsStep f₂ ty items c := by
  unfold convertItemsStep
  split
  · cases items with
    | some it =>
      have : f₁ it c = f₂ it c := hstep it c (by simpa [osizeItm] using hsz) hT
      simp only [this]
    | none => rfl
  · rfl

theorem convertCompStep_congr (doc : Document)
    {f₁ f₂ : OpenSchema → CSt → JSchema × CSt} (B T₀ : Nat)
    (hstep : ∀ s' c', osize s' < B → toResolve doc c'.vis ≤ T₀ →
      f₁ s' c' = f₂ s' c')
    (hevol : ∀ s' c', StEvol c' (f₁ s' c').2)
    (l : Option OList) (c : CSt)
    (hsz : olsizeO l ≤ B) (hT : toResolve doc c.vis ≤ T₀) :
    convertCompStep f₁ l c = convertCompStep f₂ l c := by
  unfold convertCompStep
  cases l with
  | some l =>
    dsimp only
    rw [convertListWith_congr doc B T₀ hstep hevol l c
      (by simpa [olsizeO] using hsz) hT]
  | none => rfl

/-- Above the bound, the fuel amount is invisible. -/
theorem convertGo_fuel_congr (doc : Document) (m : Bool) :
    ∀ (f : Nat), ∀ (g : Nat) (s : OpenSchema) (c : CSt),
      osize s + toResolve doc c.vis * (1 + maxTargetSize doc) < f →
      osize s + toResolve doc c.vis * (1 + maxTargetSize doc) < g →
      convertGo doc m f s c = convertGo doc m g s c := by
  intro f
  induction f using Nat.strong_induction_on with
  | _ f IH =>
    intro g s c hf hg
    match f, g with
    | f' + 1, g' + 1 =>
      cases s with
      | ref r d =>
        rw [convertGo, convertGo]
        split
        · rfl
        · set c₁ := if m = true then c else c.logAdd (attemptMsg r) with hc₁
          have hc₁vis : c₁.vis = c.vis := by
            rw [hc₁]; split <;> rfl
          cases hcache : lookupA c₁.st.cache r with
          | some cached => simp [hcache]
          | none =>
            simp only [hcache]
            cases hres : internalResolveRef doc r c₁.vis with
            | mk o vis' =>
              cases o with
              | none => simp only
              | some t =>
                simp only
                rcases internalResolveRef_some hres with ⟨hwalk, hmem, hnot, hvis⟩
                have htas := walkDoc_targetSize_le hwalk
                have hTlt : toResolve doc (r :: c₁.vis) < toResolve doc c₁.vis :=
                  toResolve_lt doc hmem hnot
                have hchild : osize t.asSchema +
                    toResolve doc vis' * (1 + maxTargetSize doc) <
                    toResolve doc c.vis * (1 + maxTargetSize doc) := by
                  rw [hvis]
                  calc osize t.asSchema +
                      toResolve doc (r :: c₁.vis) * (1 + maxTargetSize doc)
                      < (1 + maxTargetSize doc) +
                        toResolve doc (r :: c₁.vis) * (1 + maxTargetSize doc) := by
                        omega
                    _ = (toResolve doc (r :: c₁.vis) + 1) * (1 + maxTargetSize doc) := by
                        ring
                    _ ≤ toResolve doc c₁.vis * (1 + maxTargetSize doc) := by
                        apply Nat.mul_le_mul_right
                        omega
                    _ = toResolve doc c.vis * (1 + maxTargetSize doc) := by
                        rw [hc₁vis]
                have hor : osize (OpenSchema.ref r d) = 1 := osize_ref r d
                have hbf : toResolve doc c.vis * (1 + maxTargetSize doc) < f' := by
                  omega
                have hbg : toResolve doc c.vis * (1 + maxTargetSize doc) < g' := by
                  omega
                have hrec : convertGo doc m f' t.asSchema { c₁ with vis := vis' } =
                    convertGo doc m g' t.asSchema { c₁ with vis := vis' } := by
                  apply IH f' (Nat.lt_succ_self f') g'
                  · exact Nat.lt_trans hchild hbf
                  · exact Nat.lt_trans hchild hbg
                rw [hrec]
      | node ty fmt d en df props req addP items one anyO allO =>
        have hstep : ∀ s' c',
            osize s' < osize (.node ty fmt d en df props req addP items one anyO allO) →
            toResolve doc c'.vis ≤ toResolve doc c.vis →
            convertGo doc m f' s' c' = convertGo doc m g' s' c' := by
          intro s' c' hs hT
          apply IH f' (Nat.lt_succ_self f') g'
          · have h1 : osize s' + toResolve doc c'.vis * (1 + maxTargetSize doc) <
                osize (.node ty fmt d en df props req addP items one anyO allO) +
                  toResolve doc c.vis * (1 + maxTargetSize doc) := by
              have := Nat.mul_le_mul_right (1 + maxTargetSize doc) hT
              omega
            omega
          · have h1 : osize s' + toResolve doc c'.vis * (1 + maxTargetSize doc) <
                osize (.node ty fmt d en df props req addP items one anyO allO) +
                  toResolve doc c.vis * (1 + maxTargetSize doc) := by
              have := Nat.mul_le_mul_right (1 + maxTargetSize doc) hT
              omega
            omega
        have hevol : ∀ s' c', StEvol c' (convertGo doc m f' s' c').2 :=
          fun s' c' => convertGo_evol doc m f' s' c'
        have hszall : opsizeO props + osizeAO addP + osizeItm items +
            olsizeO one + olsizeO anyO + olsizeO allO <
            osize (.node ty fmt d en df props req addP items one anyO allO) := by
          rw [osize_node]
          omega
        rw [convertGo, convertGo]
        have hB := hszall
        set B := osize (.node ty fmt d en df props req addP items one anyO allO) with hBdef
        set T₀ := toResolve doc c.vis with hT₀
        have e₁ : convertPropsStep (convertGo doc m f') ty props c =
            convertPropsStep (convertGo doc m g') ty props c :=
          convertPropsStep_congr doc B T₀ hstep hevol ty props c (by omega) (le_refl _)
        rw [← e₁]
        rcases h₁ : convertPropsStep (convertGo doc m f') ty props c with ⟨jp, c₁⟩
        dsimp only
        have hTc₁ : toResolve doc c₁.vis ≤ T₀ := by
          have := convertPropsStep_evol hevol ty props c
          rw [h₁] at this
          exact toResolve_le_of_evol doc this
        have e₂ : convertAddPStep (convertGo doc m f') ty addP c₁ =
            convertAddPStep (convertGo doc m g') ty addP c₁ :=
          convertAddPStep_congr doc B T₀ hstep ty addP c₁ (by omega) hTc₁
        rw [← e₂]
        rcases h₂ : convertAddPStep (convertGo doc m f') ty addP c₁ with ⟨ja, c₂⟩
        dsimp only
        have hTc₂ : toResolve doc c₂.vis ≤ T₀ := by
          have := convertAddPStep_evol hevol ty addP c₁
          rw [h₂] at this
          exact le_trans (toResolve_le_of_evol doc this) hTc₁
        have e₃ : convertItemsStep (convertGo doc m f') ty items c₂ =
            convertItemsStep (convertGo doc m g') ty items c₂ :=
          convertItemsStep_congr doc B T₀ hstep ty items c₂ (by omega) hTc₂
        rw [← e₃]
        rcases h₃ : convertItemsStep (convertGo doc m f') ty items c₂ with ⟨ji, c₃⟩
        dsimp only
        have hTc₃ : toResolve doc c₃.vis ≤ T₀ := by
          have := convertItemsStep_evol hevol ty items c₂
          rw [h₃] at this
          exact le_trans (toResolve_le_of_evol doc this) hTc₂
        have e₄ : convertCompStep (convertGo doc m f') one c₃ =
            convertCompStep (convertGo doc m g') one c₃ :=
          convertCompStep_congr doc B T₀ hstep hevol one c₃ (by omega) hTc₃
        rw [← e₄]
        rcases h₄ : convertCompStep (convertGo doc m f') one c₃ with ⟨j₄, c₄⟩
        dsimp only
        have hTc₄ : toResolve doc c₄.vis ≤ T₀ := by
          have := convertCompStep_evol hevol one c₃
          rw [h₄] at this
          exact le_trans (toResolve_le_of_evol doc this) hTc₃
        have e₅ : convertCompStep (convertGo doc m f') anyO c₄ =
            convertCompStep (convertGo doc m g') anyO c₄ :=
          convertCompStep_congr doc B T₀ hstep hevol anyO c₄ (by omega) hTc₄
        rw [← e₅]
        rcases h₅ : convertCompStep (convertGo doc m f') anyO c₄ with ⟨j₅, c₅⟩
        dsimp only
        have hTc₅ : toResolve doc c₅.vis ≤ T₀ := by
          have := convertCompStep_evol hevol anyO c₄
          rw [h₅] at this
          exact le_trans (toResolve_le_of_evol doc this) hTc₄
        have e₆ : convertCompStep (convertGo doc m f') allO c₅ =
            convertCompStep (convertGo doc m g') allO c₅ :=
          convertCompStep_congr doc B T₀ hstep hevol allO c₅ (by omega) hTc₅
        rw [← e₆]

/-- The public converter equals the fueled one at any sufficient fuel. -/
theorem convertOpenApiSchemaToJsonSchema_eq_go (doc : Document) (m : Bool)
    (s : OpenSchema) (vis : List String) (st : St) (g : Nat)
    (hg : osize s + toResolve doc vis * (1 + maxTargetSize doc) < g) :
    convertOpenApiSchemaToJsonSchema doc s vis m st = convertGo doc m g s ⟨vis, st⟩ := by
  unfold convertOpenApiSchemaToJsonSchema convertBound
  apply convertGo_fuel_congr doc m _ g s ⟨vis, st⟩
  · show osize s + toResolve doc vis * (1 + maxTargetSize doc) <
      osize s + toResolve doc vis * (1 + maxTargetSize doc) + 1
    omega
  · show osize s + toResolve doc vis * (1 + maxTargetSize doc) < g
    exact hg

/-- In the fall-through path, a reference whose resolution fails converts
to the degraded pointer node, with the line-165 diagnostic (local mode
only) and the line-182 diagnostic appended. -/
theorem convert_ref_fail_eq (doc : Document) (m : Bool) (r : String)
    (d : Option String) (vis : List String) (st : St)
    (hmode : m = true ∨ startsWithS r schemasPrefix = false)
    (hcache : lookupA st.cache r = none)
    (hfail : (internalResolveRef doc r vis).1 = none) :
    convertOpenApiSchemaToJsonSchema doc (.ref r d) vis m st =
      (degradedNode r d, ⟨vis, { st with log := st.log ++
        (if m then [failMsg r] else [attemptMsg r, failMsg r]) }⟩) := by
  have hcond : (!m && startsWithS r schemasPrefix) = false := by
    rcases hmode with rfl | hpre
    · simp
    · simp [hpre]
  rcases hres : internalResolveRef doc r vis with ⟨o, vis'⟩
  have ho : o = none := by rw [hres] at hfail; exact hfail
  subst ho
  have hres' : internalResolveRef doc r vis = (none, vis) := by
    rw [hres, internalResolveRef_none hres]
  unfold convertOpenApiSchemaToJsonSchema convertBound
  rw [convertGo]
  rw [hcond]
  simp only [Bool.false_eq_true, if_false]
  cases m with
  | true =>
    simp only [if_true]
    rw [show lookupA (⟨vis, st⟩ : CSt).st.cache r = none from hcache]
    rw [show internalResolveRef doc r (⟨vis, st⟩ : CSt).vis = (none, vis) from hres']
    simp [CSt.logAdd]
  | false =>
    simp only [Bool.false_eq_true, if_false]
    rw [show lookupA ((⟨vis, st⟩ : CSt).logAdd (attemptMsg r)).st.cache r = none
      from hcache]
    rw [show internalResolveRef doc r ((⟨vis, st⟩ : CSt).logAdd (attemptMsg r)).vis
      = (none, vis) from hres']
    simp [CSt.logAdd]

/-- In local mode, a reference not bearing the shared-component prefix and
missing from the cache is dereferenced; on success the target is
recursively converted, the result cached under the pointer and returned
inline, after the line-165 diagnostic. -/
theorem convert_ref_inline_eq (doc : Document) (r : String)
    (d : Option String) (vis vis' : List String) (st : St) (t : RefTarget)
    (hpre : startsWithS r schemasPrefix = false)
    (hcache : lookupA st.cache r = none)
    (hres : internalResolveRef doc r vis = (some t, vis')) :
    convertOpenApiSchemaToJsonSchema doc (.ref r d) vis false st =
      ((convertOpenApiSchemaToJsonSchema doc t.asSchema vis' false
          { st with log := st.log ++ [attemptMsg r] }).1,
        (convertOpenApiSchemaToJsonSchema doc t.asSchema vis' false
          { st with log := st.log ++ [attemptMsg r] }).2.cacheSet r
          (convertOpenApiSchemaToJsonSchema doc t.asSchema vis' false
            { st with log := st.log ++ [attemptMsg r] }).1) := by
  have hcond : (!false && startsWithS r schemasPrefix) = false := by simp [hpre]
  rcases internalResolveRef_some hres with ⟨hwalk, hmem, hnot, hvis⟩
  have htas := walkDoc_targetSize_le hwalk
  have hTlt : toResolve doc (r :: vis) < toResolve doc vis :=
    toResolve_lt doc hmem hnot
  have hchild : osize t.asSchema +
      toResolve doc vis' * (1 + maxTargetSize doc) <
      osize (OpenSchema.ref r d) + toResolve doc vis * (1 + maxTargetSize doc) := by
    rw [hvis, osize_ref]
    calc osize t.asSchema + toResolve doc (r :: vis) * (1 + maxTargetSize doc)
        < (1 + maxTargetSize doc) +
          toResolve doc (r :: vis) * (1 + maxTargetSize doc) := by omega
      _ = (toResolve doc (r :: vis) + 1) * (1 + maxTargetSize doc) := by ring
      _ ≤ toResolve doc vis * (1 + maxTargetSize doc) := by
          apply Nat.mul_le_mul_right
          omega
      _ ≤ 1 + toResolve doc vis * (1 + maxTargetSize doc) := by omega
  unfold convertOpenApiSchemaToJsonSchema convertBound
  rw [convertGo]
  rw [hcond]
  simp only [Bool.false_eq_true, if_false]
  rw [show lookupA ((⟨vis, st⟩ : CSt).logAdd (attemptMsg r)).st.cache r = none
    from hcache]
  rw [show internalResolveRef doc r ((⟨vis, st⟩ : CSt).logAdd (attemptMsg r)).vis
    = (some t, vis') from hres]
  dsimp only [CSt.logAdd]
  have hrec : convertGo doc false
      (osize (OpenSchema.ref r d) + toResolve doc vis * (1 + maxTargetSize doc))
      t.asSchema (⟨vis', { st with log := st.log ++ [attemptMsg r] }⟩ : CSt) =
      convertGo doc false
        (osize t.asSchema + toResolve doc vis' * (1 + maxTargetSize doc) + 1)
        t.asSchema (⟨vis', { st with log := st.log ++ [attemptMsg r] }⟩ : CSt) := by
    apply convertGo_fuel_congr doc false _ _ t.asSchema _ hchild
    show osize t.asSchema + toResolve doc vis' * (1 + maxTargetSize doc) <
      osize t.asSchema + toResolve doc vis' * (1 + maxTargetSize doc) + 1
    omega
  rw [hrec]

/-! # Claims -/

/-- C6: For a component table where component A references B and B
references A, converting the components terminates (no unbounded
recursion), and the converted table contains both A and B, each holding
exactly one pointer to the other rather than an infinite expansion: in
local mode each cross-reference is rewritten to a single `#/$defs/` local
pointer, so the computation below evaluates (to a closed value) rather
than diverging. -/
theorem c6_two_node_cycle_terminates :
    (convertComponentsToJsonSchema cycleDoc St.init).1 =
      [("A", JSchema.mk (some "#/$defs/B") none none none none none none
          none none none none none none none),
       ("B", JSchema.mk (some "#/$defs/A") none none none none none none
          none none none none none none none)] := rfl

/-- C8: The first over-length operation identifier (80 characters) in a
run is truncated to its first 59 characters and suffixed `-0001`; a second
over-length identifier in the same run receives `-0002`. -/
theorem c8_overlong_names_numbered :
    ((convertToMCPTools twoLongDoc none St.init).1.methods.map (·.name)) =
      [String.mk (List.replicate 59 'x') ++ "-0001",
       String.mk (List.replicate 59 'y') ++ "-0002"] := rfl

/-- C7: Converting the same document and filter configuration twice, each
time from a fresh converter instance, yields identical output in all three
projections.  In the embedding the converter instance's mutable state is
an explicit value, so a fresh instance is exactly the state `St.init`. -/
theorem c7_fresh_runs_deterministic (doc : Document)
    (cfg : Option ToolFilterConfig) (st₁ st₂ : St)
    (h₁ : st₁ = St.init) (h₂ : st₂ = St.init) :
    runAll doc cfg st₁ = runAll doc cfg st₂ := by
  subst h₁; subst h₂; rfl

/-- Witness for C7 at a concrete document. -/
theorem c7_witness :
    runAll errDoc none St.init = runAll errDoc none St.init :=
  c7_fresh_runs_deterministic errDoc none St.init St.init rfl rfl

/-- C5: Schema conversion is total and never raises.  First conjunct:
above the computable recursion bound the fuel is invisible, so the
converter's recursion always bottoms out (in particular
`convertOpenApiSchemaToJsonSchema`, which runs at fuel
`convertBound`, computes the unique fixed value).  Second conjunct: a
reference that reaches resolution (any pointer in resolved mode, a
non-shared-component pointer in local mode) and fails to resolve —
missing from the document or not rooted at it — yields the best-effort
pointer-shaped `degradedNode` carrying whatever description is available,
and the failure diagnostic is appended to the log. -/
theorem c5_conversion_total_and_degraded :
    (∀ (doc : Document) (m : Bool) (f g : Nat) (s : OpenSchema) (c : CSt),
      osize s + toResolve doc c.vis * (1 + maxTargetSize doc) < f →
      osize s + toResolve doc c.vis * (1 + maxTargetSize doc) < g →
      convertGo doc m f s c = convertGo doc m g s c) ∧
    (∀ (doc : Document) (m : Bool) (r : String) (d : Option String)
      (vis : List String) (st : St),
      (m = true ∨ startsWithS r schemasPrefix = false) →
      lookupA st.cache r = none →
      (internalResolveRef doc r vis).1 = none →
      convertOpenApiSchemaToJsonSchema doc (.ref r d) vis m st =
        (degradedNode r d, ⟨vis, { st with log := st.log ++
          (if m then [failMsg r] else [attemptMsg r, failMsg r]) }⟩)) :=
  ⟨fun doc m f g s c hf hg => convertGo_fuel_congr doc m f g s c hf hg,
   fun doc m r d vis st hmode hcache hfail =>
     convert_ref_fail_eq doc m r d vis st hmode hcache hfail⟩

/-- Witness for C5: fuel 2 and fuel 3 agree on converting a dangling
reference over the empty document, and the conversion of an unresolvable
pointer degrades with the diagnostic. -/
theorem c5_witness :
    convertGo emptyDoc false 2 (.ref "#/nope" none) ⟨[], St.init⟩ =
      convertGo emptyDoc false 3 (.ref "#/nope" none) ⟨[], St.init⟩ ∧
    convertOpenApiSchemaToJsonSchema emptyDoc (.ref "#/nope" none) [] false
        St.init =
      (degradedNode "#/nope" none, ⟨[], { St.init with log :=
        [attemptMsg "#/nope", failMsg "#/nope"] }⟩) := by
  constructor
  · exact c5_conversion_total_and_degraded.1 emptyDoc false 2 3
      (.ref "#/nope" none) ⟨[], St.init⟩ (by decide) (by decide)
  · exact c5_conversion_total_and_degraded.2 emptyDoc false "#/nope" none []
      St.init (Or.inr (by decide)) rfl rfl

/-- C9: In local mode, a reference whose pointer does not start with the
shared-component prefix is not rewritten to a local pointer: after the
line-165 diagnostic it is dereferenced against the document, its target
recursively converted, the result cached under the pointer and inlined in
place (first conjunct); only when dereferencing fails does it degrade to a
pointer-shaped node carrying the available description (second
conjunct). -/
theorem c9_nonprefixed_ref_inlined :
    (∀ (doc : Document) (r : String) (d : Option String)
      (vis vis' : List String) (st : St) (t : RefTarget),
      startsWithS r schemasPrefix = false →
      lookupA st.cache r = none →
      internalResolveRef doc r vis = (some t, vis') →
      convertOpenApiSchemaToJsonSchema doc (.ref r d) vis false st =
        ((convertOpenApiSchemaToJsonSchema doc t.asSchema vis' false
            { st with log := st.log ++ [attemptMsg r] }).1,
          (convertOpenApiSchemaToJsonSchema doc t.asSchema vis' false
            { st with log := st.log ++ [attemptMsg r] }).2.cacheSet r
            (convertOpenApiSchemaToJsonSchema doc t.asSchema vis' false
              { st with log := st.log ++ [attemptMsg r] }).1)) ∧
    (∀ (doc : Document) (r : String) (d : Option String)
      (vis : List String) (st : St),
      startsWithS r schemasPrefix = false →
      lookupA st.cache r = none →
      (internalResolveRef doc r vis).1 = none →
      convertOpenApiSchemaToJsonSchema doc (.ref r d) vis false st =
        (degradedNode r d, ⟨vis, { st with log := st.log ++
          [attemptMsg r, failMsg r] }⟩)) :=
  ⟨fun doc r d vis vis' st t hpre hcache hres =>

    convert_ref_inline_eq doc r d vis vis' st t hpre hcache hres,
   fun doc r d vis st hpre hcache hfail => by
    have := convert_ref_fail_eq doc false r d vis st (Or.inr hpre) hcache hfail
    simpa using this⟩

/-- Witness for C9: the pointer `#/definitions/X` of `extraDoc` resolves
outside the shared-component table and is inlined. -/
theorem c9_witness :
    convertOpenApiSchemaToJsonSchema extraDoc (.ref "#/definitions/X" none)
        [] false St.init =
      ((convertOpenApiSchemaToJsonSchema extraDoc
          (RefTarget.schemaT (.node (some "string") none (some "from extra")
            none none none none none none none none none)).asSchema
          ["#/definitions/X"] false
          { St.init with log := [attemptMsg "#/definitions/X"] }).1,
        (convertOpenApiSchemaToJsonSchema extraDoc
          (RefTarget.schemaT (.node (some "string") none (some "from extra")
            none none none none none none none none none)).asSchema
          ["#/definitions/X"] false
          { St.init with log := [attemptMsg "#/definitions/X"] }).2.cacheSet
          "#/definitions/X"
          (convertOpenApiSchemaToJsonSchema extraDoc
            (RefTarget.schemaT (.node (some "string") none (some "from extra")
              none none none none none none none none none)).asSchema
            ["#/definitions/X"] false
            { St.init with log := [attemptMsg "#/definitions/X"] }).1) := by
  exact c9_nonprefixed_ref_inlined.1 extraDoc "#/definitions/X" none []
    ["#/definitions/X"] St.init
    (RefTarget.schemaT (.node (some "string") none (some "from extra")
      none none none none none none none none none))
    (by decide) rfl rfl

/-- Counterexample to C1: in one run over `dupDoc`, the function-call
projection emits the raw 80-character identifier (names are not bounded by
64 characters there), and both the function-call and the registry
projections emit two tools named `dup` (names are not unique within the
run). -/
theorem c1_counterexample :
    ((convertToOpenAITools dupDoc St.init).1.map (·.name)) =
      [some longIdX, some "dup", some "dup"] ∧
    64 < longIdX.length ∧
    ((convertToMCPTools dupDoc none St.init).1.methods.map (·.name)) =
      [String.mk (List.replicate 59 'x') ++ "-0001", "dup", "dup"] :=
  ⟨rfl, by decide, rfl⟩

/-- Counterexample to C2: over `errDoc` the registry projection's tool
description carries the appended error-response text while the
function-call projection's description of the same operation is empty, so
the projections do not agree on descriptions. -/
theorem c2_counterexample :
    ((convertToMCPTools errDoc none St.init).1.methods.map (·.description)) =
      ["\nError Responses:\n404: bad"] ∧
    ((convertToOpenAITools errDoc St.init).1.map (·.description)) = [""] ∧
    ("\nError Responses:\n404: bad" : String) ≠ "" :=
  ⟨rfl, rfl, by decide⟩

/-- Counterexample to C4: a success response (`200`) that exists but has
no content produces no return schema at all, where the claim required a
plain string descriptor. -/
theorem c4_counterexample :
    (extractResponseType emptyDoc
      (some [("200", RespOrRef.item ⟨some "ok", none⟩)]) St.init).1 = none :=
  rfl

/-- C4 (amended): return-schema extraction.  (1)–(4): among success codes
the first present one in the order `200`, `201`, `202`, `204` decides the
result (extraction behaves as if only that response were present).
(5)–(8): when no success response exists, or the chosen one fails to
resolve, or it has no content, no return schema is produced.  (9): JSON
content carrying a schema is converted with its own selective defs
attached and the response description filled in when the schema has
none.  (10): otherwise `image/png` or `image/jpeg` content degrades to a
binary string descriptor.  (11): otherwise a plain string descriptor is
returned. -/
theorem c4_amended_return_schema_extraction :
    (∀ (doc : Document) (st : St) (rs : List (String × RespOrRef)) (rr : RespOrRef),
      lookupA rs "200" = some rr →
      extractResponseType doc (some rs) st =
        extractResponseType doc (some [("200", rr)]) st) ∧
    (∀ (doc : Document) (st : St) (rs : List (String × RespOrRef)) (rr : RespOrRef),
      lookupA rs "200" = none → lookupA rs "201" = some rr →
      extractResponseType doc (some rs) st =
        extractResponseType doc (some [("201", rr)]) st) ∧
    (∀ (doc : Document) (st : St) (rs : List (String × RespOrRef)) (rr : RespOrRef),
      lookupA rs "200" = none → lookupA rs "201" = none →
      lookupA rs "202" = some rr →
      extractResponseType doc (some rs) st =
        extractResponseType doc (some [("202", rr)]) st) ∧
    (∀ (doc : Document) (st : St) (rs : List (String × RespOrRef)) (rr : RespOrRef),
      lookupA rs "200" = none → lookupA rs "201" = none →
      lookupA rs "202" = none → lookupA rs "204" = some rr →
      extractResponseType doc (some rs) st =
        extractResponseType doc (some [("204", rr)]) st) ∧
    (∀ (doc : Document) (st : St),
      extractResponseType doc none st = (none, st)) ∧
    (∀ (doc : Document) (st : St) (rs : List (String × RespOrRef)),
      lookupA rs "200" = none → lookupA rs "201" = none →
      lookupA rs "202" = none → lookupA rs "204" = none →
      extractResponseType doc (some rs) st = (none, st)) ∧
    (∀ (doc : Document) (st : St) (rs : List (String × RespOrRef)) (rr : RespOrRef),
      ((lookupA rs "200").or ((lookupA rs "201").or
        ((lookupA rs "202").or (lookupA rs "204")))) = some rr →
      resolveResponse doc rr = none →
      extractResponseType doc (some rs) st = (none, st)) ∧
    (∀ (doc : Document) (st : St) (rs : List (String × RespOrRef))
      (rr : RespOrRef) (ro : ResponseObj),
      ((lookupA rs "200").or ((lookupA rs "201").or
        ((lookupA rs "202").or (lookupA rs "204")))) = some rr →
      resolveResponse doc rr = some ro → ro.content = none →
      extractResponseType doc (some rs) st = (none, st)) ∧
    (∀ (doc : Document) (st : St) (rs : List (String × RespOrRef))
      (rr : RespOrRef) (ro : ResponseObj) (content : List (String × Media))
      (s : OpenSchema),
      ((lookupA rs "200").or ((lookupA rs "201").or
        ((lookupA rs "202").or (lookupA rs "204")))) = some rr →
      resolveResponse doc rr = some ro → ro.content = some content →
      (lookupA content "application/json").bind (·.schema) = some s →
      extractResponseType doc (some rs) st =
        (some (if truthyS ro.description &&
            !(truthyS (attachDefs
              (convertOpenApiSchemaToJsonSchema doc s [] false st).1
              (buildSelectiveDefs doc
                (convertOpenApiSchemaToJsonSchema doc s [] false st).1
                (convertOpenApiSchemaToJsonSchema doc s [] false st).2.st).1).description)
          then (attachDefs
              (convertOpenApiSchemaToJsonSchema doc s [] false st).1
              (buildSelectiveDefs doc
                (convertOpenApiSchemaToJsonSchema doc s [] false st).1
                (convertOpenApiSchemaToJsonSchema doc s [] false st).2.st).1).withDescription
              ro.description
          else attachDefs
              (convertOpenApiSchemaToJsonSchema doc s [] false st).1
              (buildSelectiveDefs doc
                (convertOpenApiSchemaToJsonSchema doc s [] false st).1
                (convertOpenApiSchemaToJsonSchema doc s [] false st).2.st).1),
          (buildSelectiveDefs doc
            (convertOpenApiSchemaToJsonSchema doc s [] false st).1
            (convertOpenApiSchemaToJsonSchema doc s [] false st).2.st).2)) ∧
    (∀ (doc : Document) (st : St) (rs : List (String × RespOrRef))
      (rr : RespOrRef) (ro : ResponseObj) (content : List (String × Media)),
      ((lookupA rs "200").or ((lookupA rs "201").or
        ((lookupA rs "202").or (lookupA rs "204")))) = some rr →
      resolveResponse doc rr = some ro → ro.content = some content →
      (lookupA content "application/json").bind (·.schema) = none →
      ((lookupA content "image/png").isSome ∨
        (lookupA content "image/jpeg").isSome) →
      extractResponseType doc (some rs) st =
        (some (JSchema.mk none (some "string") (some "binary")
          (some (if truthyS ro.description then ro.description.getD "" else ""))
          none none none none none none none none none none), st)) ∧
    (∀ (doc : Document) (st : St) (rs : List (String × RespOrRef))
      (rr : RespOrRef) (ro : ResponseObj) (content : List (String × Media)),
      ((lookupA rs "200").or ((lookupA rs "201").or
        ((lookupA rs "202").or (lookupA rs "204")))) = some rr →
      resolveResponse doc rr = some ro → ro.content = some content →
      (lookupA content "application/json").bind (·.schema) = none →
      ¬ ((lookupA content "image/png").isSome ∨
        (lookupA content "image/jpeg").isSome) →
      extractResponseType doc (some rs) st =
        (some (JSchema.mk none (some "string") none
          (some (if truthyS ro.description then ro.description.getD "" else ""))
          none none none none none none none none none none), st)) := by
  refine ⟨?_, ?_, ?_, ?_, ?_, ?_, ?_, ?_, ?_, ?_, ?_⟩
  · intro doc st rs rr h200
    unfold extractResponseType
    dsimp only
    rw [h200]
    rfl
  · intro doc st rs rr h200 h201
    unfold extractResponseType
    dsimp only
    rw [h200, h201]
    rfl
  · intro doc st rs rr h200 h201 h202
    unfold extractResponseType
    dsimp only
    rw [h200, h201, h202]
    rfl
  · intro doc st rs rr h200 h201 h202 h204
    unfold extractResponseType
    dsimp only
    rw [h200, h201, h202, h204]
    rfl
  · intro doc st
    rfl
  · intro doc st rs h200 h201 h202 h204
    unfold extractResponseType
    dsimp only
    rw [h200, h201, h202, h204]
    rfl
  · intro doc st rs rr hsucc hres
    unfold extractResponseType
    dsimp only
    rw [hsucc]
    dsimp only
    rw [hres]
  · intro doc st rs rr ro hsucc hres hcont
    unfold extractResponseType
    dsimp only
    rw [hsucc]
    dsimp only
    rw [hres]
    dsimp only
    rw [hcont]
  · intro doc st rs rr ro content s hsucc hres hcont hjson
    unfold extractResponseType
    dsimp only
    rw [hsucc]
    dsimp only
    rw [hres]
    dsimp only
    rw [hcont]
    dsimp only
    rw [hjson]
  · intro doc st rs rr ro content hsucc hres hcont hjson himg
    unfold extractResponseType
    dsimp only
    rw [hsucc]
    dsimp only
    rw [hres]
    dsimp only
    rw [hcont]
    dsimp only
    rw [hjson]
    dsimp only
    rw [if_pos himg]
  · intro doc st rs rr ro content hsucc hres hcont hjson himg
    unfold extractResponseType
    dsimp only
    rw [hsucc]
    dsimp only
    rw [hres]
    dsimp only
    rw [hcont]
    dsimp only
    rw [hjson]
    dsimp only
    rw [if_neg himg]

/-- Witness for C4 (amended), instantiating the no-success-response and
plain-string-descriptor conjuncts at concrete inputs. -/
theorem c4_amended_witness :
    extractResponseType emptyDoc
      (some [("500", RespOrRef.item ⟨some "e", none⟩)]) St.init =
      (none, St.init) ∧
    extractResponseType emptyDoc
      (some [("200", RespOrRef.item ⟨some "ok", some [("text/plain", ⟨none⟩)]⟩)])
      St.init =
      (some (JSchema.mk none (some "string") none (some "ok")
        none none none none none none none none none none), St.init) := by
  constructor
  · exact c4_amended_return_schema_extraction.2.2.2.2.2.1 emptyDoc St.init
      [("500", RespOrRef.item ⟨some "e", none⟩)] rfl rfl rfl rfl
  · exact c4_amended_return_schema_extraction.2.2.2.2.2.2.2.2.2.2 emptyDoc
      St.init [("200", RespOrRef.item ⟨some "ok", some [("text/plain", ⟨none⟩)]⟩)]
      (RespOrRef.item ⟨some "ok", some [("text/plain", ⟨none⟩)]⟩)
      ⟨some "ok", some [("text/plain", ⟨none⟩)]⟩ [("text/plain", ⟨none⟩)]
      rfl rfl rfl rfl (by simp [lookupA])

theorem paramsGo_cons_skip (doc : Document) {param : ParamOrRef}
    (h : skippedParam doc param) (rest : List ParamOrRef)
    (props : List (String × JSchema)) (req : List String) (st : St) :
    paramsGo doc (param :: rest) props req st =
      paramsGo doc rest props req st := by
  rw [paramsGo]
  rcases h with h | ⟨p, hp, hs⟩
  · rw [h]
  · rw [hp]
    dsimp only
    rw [hs]

theorem paramsGo_middle_skip (doc : Document) {bad : ParamOrRef}
    (h : skippedParam doc bad) (ps₁ ps₂ : List ParamOrRef) :
    ∀ (props : List (String × JSchema)) (req : List String) (st : St),
    paramsGo doc (ps₁ ++ bad :: ps₂) props req st =
      paramsGo doc (ps₁ ++ ps₂) props req st := by
  induction ps₁ with
  | nil =>
    intro props req st
    exact paramsGo_cons_skip doc h ps₂ props req st
  | cons param ps₁ ih =>
    intro props req st
    show paramsGo doc (param :: (ps₁ ++ bad :: ps₂)) props req st =
      paramsGo doc (param :: (ps₁ ++ ps₂)) props req st
    rw [paramsGo, paramsGo]
    rcases hr : resolveParameter doc param with _ | paramObj
    · exact ih props req st
    · dsimp only
      rcases hs : paramObj.schema with _ | ps
      · exact ih props req st
      · dsimp only
        rcases hc : convertOpenApiSchemaToJsonSchema doc ps [] false st
          with ⟨schema, c⟩
        dsimp only
        exact ih _ _ _

/-- **C10.** A declared parameter whose object lacks a schema, or given by
a reference that fails to resolve (or resolves to an object without a
name), is silently omitted by `convertOperationToMCPMethod`: the compiled
method — properties, required list, description, return schema — and the
final state, diagnostics log included, are exactly those of the same
operation without that parameter; the surrounding parameters compile
unchanged. -/
theorem c10_bad_parameter_silently_omitted (doc : Document)
    (op : Operation) (method path : String)
    (ps₁ ps₂ : List ParamOrRef) (bad : ParamOrRef) (st : St)
    (h : skippedParam doc bad) :
    convertOperationToMCPMethod doc
        { op with parameters := some (ps₁ ++ bad :: ps₂) } method path st =
      convertOperationToMCPMethod doc
        { op with parameters := some (ps₁ ++ ps₂) } method path st := by
  rcases op with ⟨oid, osum, odesc, opars, orb, ores⟩
  rcases oid with _ | mn
  · rfl
  · unfold convertOperationToMCPMethod
    dsimp only [Option.getD]
    rw [paramsGo_middle_skip doc h ps₁ ps₂ [] [] st]
    rfl

/-- Concretely: dropping an unresolvable parameter reference placed after
an ordinary parameter changes nothing in the compiled method or the
state. -/
theorem c10_witness :
    skippedParam emptyDoc badParamRef ∧
      convertOperationToMCPMethod emptyDoc
          { bareOp "findOne" with
              parameters := some ([goodParam] ++ badParamRef :: []) }
          "get" "/a" St.init =
        convertOperationToMCPMethod emptyDoc
          { bareOp "findOne" with parameters := some ([goodParam] ++ []) }
          "get" "/a" St.init :=
  ⟨Or.inl rfl,
    c10_bad_parameter_silently_omitted emptyDoc (bareOp "findOne") "get" "/a"
      [goodParam] [] badParamRef St.init (Or.inl rfl)⟩

/-! ## C2: the function-call and tool-use projections agree pointwise -/

theorem openAI_anthropic_methodsGo (doc : Document) :
    (ops : List (String × Operation)) → (acc₁ : List OpenAITool) →
      (acc₂ : List AnthropicTool) → (st : St) →
    acc₁.map (fun t => (t.name, t.description, t.parameters)) =
      acc₂.map (fun t => (t.name, t.description, t.input_schema)) →
    (openAIMethodsGo doc ops acc₁ st).1.map
        (fun t => (t.name, t.description, t.parameters)) =
      (anthropicMethodsGo doc ops acc₂ st).1.map
        (fun t => (t.name, t.description, t.input_schema)) ∧
    (openAIMethodsGo doc ops acc₁ st).2 =
      (anthropicMethodsGo doc ops acc₂ st).2
  | [], _, _, _, h => ⟨h, rfl⟩
  | (method, operation) :: rest, acc₁, acc₂, st, h => by
    rw [openAIMethodsGo, anthropicMethodsGo]
    cases hm : isOperation method with
    | false =>
      rw [if_pos (by decide : (!false) = true),
        if_pos (by decide : (!false) = true)]
      exact openAI_anthropic_methodsGo doc rest acc₁ acc₂ st h
    | true =>
      rw [if_neg (by decide : ¬((!true) = true)),
        if_neg (by decide : ¬((!true) = true))]
      rcases hc : convertOperationToJsonSchema doc operation st
        with ⟨parameters, st'⟩
      dsimp only
      exact openAI_anthropic_methodsGo doc rest _ _ st'
        (by rw [List.map_append, List.map_append, h]; rfl)

theorem openAI_anthropic_pathsGo (doc : Document) :
    (paths : List (String × Option (List (String × Operation)))) →
      (acc₁ : List OpenAITool) → (acc₂ : List AnthropicTool) → (st : St) →
    acc₁.map (fun t => (t.name, t.description, t.parameters)) =
      acc₂.map (fun t => (t.name, t.description, t.input_schema)) →
    (openAIPathsGo doc paths acc₁ st).1.map
        (fun t => (t.name, t.description, t.parameters)) =
      (anthropicPathsGo doc paths acc₂ st).1.map
        (fun t => (t.name, t.description, t.input_schema)) ∧
    (openAIPathsGo doc paths acc₁ st).2 =
      (anthropicPathsGo doc paths acc₂ st).2
  | [], _, _, _, h => ⟨h, rfl⟩
  | (_, none) :: rest, acc₁, acc₂, st, h =>
    openAI_anthropic_pathsGo doc rest acc₁ acc₂ st h
  | (path, some pathItem) :: rest, acc₁, acc₂, st, h => by
    rw [openAIPathsGo, anthropicPathsGo]
    rcases hm₁ : openAIMethodsGo doc pathItem acc₁ st with ⟨acc₁', st₁⟩
    rcases hm₂ : anthropicMethodsGo doc pathItem acc₂ st with ⟨acc₂', st₂⟩
    dsimp only
    have hh := openAI_anthropic_methodsGo doc pathItem acc₁ acc₂ st h
    rw [hm₁, hm₂] at hh
    obtain ⟨h₁, h₂⟩ := hh
    subst h₂
    exact openAI_anthropic_pathsGo doc rest acc₁' acc₂' st₁ h₁

/-- **C2 (amended).** The function-call-style and the tool-use-style
projections, run from the same instance state, are referentially
consistent: tool by tool and in the same order they carry the same name,
the same description and the identical input schema
(`parameters` = `input_schema`), and they leave the instance state
identically.  (The registry projection is not pointwise consistent with
them — its names may be truncated and uniquified, its descriptions carry
the error-responses suffix, and the filter and the missing-operationId
skip apply to it alone — as the counterexample shows.) -/
theorem c2_amended_projections_agree (doc : Document) (st : St) :
    (convertToOpenAITools doc st).1.map
        (fun t => (t.name, t.description, t.parameters)) =
      (convertToAnthropicTools doc st).1.map
        (fun t => (t.name, t.description, t.input_schema)) ∧
    (convertToOpenAITools doc st).2 = (convertToAnthropicTools doc st).2 :=
  openAI_anthropic_pathsGo doc doc.paths [] [] st rfl

theorem convert_counter (doc : Document) (m : Bool) (s : OpenSchema)
    (vis : List String) (st : St) :
    (convertOpenApiSchemaToJsonSchema doc s vis m st).2.st.counter =
      st.counter :=
  (convertGo_evol doc m (convertBound doc s vis) s ⟨vis, st⟩).2.1

theorem convertComponentsGo_counter (doc : Document) :
    ∀ (l : List (String × OpenSchema)) (acc : List (String × JSchema))
      (st : St),
      (convertComponentsGo doc l acc st).2.counter = st.counter
  | [], _, _ => rfl
  | (k, v) :: rest, acc, st => by
    rw [convertComponentsGo]
    rcases hc : convertOpenApiSchemaToJsonSchema doc v [] false st with ⟨j, c⟩
    dsimp only
    rw [convertComponentsGo_counter doc rest (setA acc k j) c.st]
    have h := convert_counter doc false v [] st
    rw [hc] at h
    exact h

theorem getAllComponentSchemas_counter (doc : Document) (st : St) :
    (getAllComponentSchemas doc st).2.counter = st.counter := by
  unfold getAllComponentSchemas
  rcases hm : st.allComps with _ | m
  · dsimp only
    rcases hc : convertComponentsToJsonSchema doc st with ⟨m', st'⟩
    dsimp only
    have h := convertComponentsGo_counter doc doc.schemas [] st
    rw [show convertComponentsGo doc doc.schemas [] st = (m', st') from hc] at h
    exact h
  · rfl

theorem collectPropsWith_counter
    {f : JSchema → List String × St → List String × St}
    (hf : ∀ s a, (f s a).2.counter = a.2.counter) :
    ∀ (l : JProps) (a : List String × St),
      (collectPropsWith f l a).2.counter = a.2.counter
  | .nil, _ => rfl
  | .cons _ v rest, a => by
    rw [collectPropsWith]
    rw [collectPropsWith_counter hf rest (f v a)]
    exact hf v a

theorem collectListWith_counter
    {f : JSchema → List String × St → List String × St}
    (hf : ∀ s a, (f s a).2.counter = a.2.counter) :
    ∀ (l : JList) (a : List String × St),
      (collectListWith f l a).2.counter = a.2.counter
  | .nil, _ => rfl
  | .cons v rest, a => by
    rw [collectListWith]
    rw [collectListWith_counter hf rest (f v a)]
    exact hf v a

theorem optStep_counter {α : Type}
    {g : α → List String × St → List String × St}
    (hg : ∀ x a, (g x a).2.counter = a.2.counter) :
    ∀ (o : Option α) (a : List String × St),
      (optStep g o a).2.counter = a.2.counter
  | some x, a => hg x a
  | none, _ => rfl

theorem collectRefStep_counter (doc : Document)
    {f : JSchema → List String × St → List String × St}
    (hf : ∀ s a, (f s a).2.counter = a.2.counter) :
    ∀ (r? : Option String) (a : List String × St),
      (collectRefStep doc f r? a).2.counter = a.2.counter
  | none, _ => rfl
  | some r, a => by
    rw [collectRefStep]
    split
    · split
      · rfl
      · rcases hg : getAllComponentSchemas doc a.2 with ⟨allSchemas, st⟩
        dsimp only
        have hgc := getAllComponentSchemas_counter doc a.2
        rw [hg] at hgc
        rcases hl : lookupA allSchemas (stripPre r defsPrefix) with _ | body
        · exact hgc
        · rw [hf body _]
          exact hgc
    · rfl

theorem collectItemsStep_counter
    {f : JSchema → List String × St → List String × St}
    (hf : ∀ s a, (f s a).2.counter = a.2.counter) :
    ∀ (o : Option (Sum JSchema JList)) (a : List String × St),
      (collectItemsStep f o a).2.counter = a.2.counter
  | some (.inl it), a => hf it a
  | some (.inr l), a => collectListWith_counter hf l a
  | none, _ => rfl

theorem collectAddPStep_counter
    {f : JSchema → List String × St → List String × St}
    (hf : ∀ s a, (f s a).2.counter = a.2.counter) :
    ∀ (o : Option (Sum Bool JSchema)) (a : List String × St),
      (collectAddPStep f o a).2.counter = a.2.counter
  | some (.inr t), a => hf t a
  | some (.inl _), _ => rfl
  | none, _ => rfl

theorem collectGo_counter (doc : Document) :
    ∀ (fuel : Nat) (s : JSchema) (a : List String × St),
      (collectGo doc fuel s a).2.counter = a.2.counter := by
  intro fuel
  induction fuel with
  | zero => intro s a; rfl
  | succ fuel ih =>
    intro s a
    rw [collectGo]
    rw [optStep_counter (collectListWith_counter ih),
      optStep_counter (collectListWith_counter ih),
      optStep_counter (collectListWith_counter ih),
      collectAddPStep_counter ih,
      collectItemsStep_counter ih,
      optStep_counter (collectPropsWith_counter ih),
      collectRefStep_counter doc ih]

theorem buildSelectiveDefs_counter (doc : Document) (s : JSchema) (st : St) :
    (buildSelectiveDefs doc s st).2.counter = st.counter := by
  unfold buildSelectiveDefs
  rcases h₁ : collectReferencedSchemaNames doc s ([], st) with ⟨names, st₁⟩
  dsimp only
  have hc₁ := collectGo_counter doc (collectBound doc s ([], st)) s ([], st)
  rw [show collectGo doc (collectBound doc s ([], st)) s ([], st) =
    (names, st₁) from h₁] at hc₁
  split
  · exact hc₁
  · rcases h₂ : getAllComponentSchemas doc st₁ with ⟨allS, st₂⟩
    dsimp only
    have hc₂ := getAllComponentSchemas_counter doc st₁
    rw [h₂] at hc₂
    exact hc₂.trans hc₁

theorem paramsGo_counter (doc : Document) :
    ∀ (l : List ParamOrRef) (props : List (String × JSchema))
      (req : List String) (st : St),
      (paramsGo doc l props req st).2.2.counter = st.counter
  | [], _, _, _ => rfl
  | param :: rest, props, req, st => by
    rw [paramsGo]
    rcases hr : resolveParameter doc param with _ | p
    · exact paramsGo_counter doc rest props req st
    · dsimp only
      rcases hs : p.schema with _ | ps
      · exact paramsGo_counter doc rest props req st
      · dsimp only
        rcases hc : convertOpenApiSchemaToJsonSchema doc ps [] false st
          with ⟨schema, c⟩
        dsimp only
        rw [paramsGo_counter doc rest _ _ c.st]
        have h := convert_counter doc false ps [] st
        rw [hc] at h
        exact h

theorem bodyGoMCP_counter (doc : Document) (rb : Option BodyOrRef)
    (props : List (String × JSchema)) (req : List String) (st : St) :
    (bodyGoMCP doc rb props req st).2.2.counter = st.counter := by
  unfold bodyGoMCP
  rcases rb with _ | b
  · rfl
  · dsimp only
    rcases hr : resolveRequestBody doc b with _ | bodyObj
    · rfl
    · dsimp only
      rcases hcn : bodyObj.content with _ | content
      · rfl
      · dsimp only
        rcases hm : (lookupA content "multipart/form-data").bind (·.schema)
          with _ | fs
        · dsimp only
          rcases hj : (lookupA content "application/json").bind (·.schema)
            with _ | bs
          · rfl
          · dsimp only
            rcases hcv : convertOpenApiSchemaToJsonSchema doc bs [] false st
              with ⟨bodySchema, c⟩
            dsimp only
            have h := convert_counter doc false bs [] st
            rw [hcv] at h
            split
            · rcases hmb : mergeObjectBody bodySchema props req
                with ⟨props', req'⟩
              exact h
            · exact h
        · dsimp only
          rcases hcv : convertOpenApiSchemaToJsonSchema doc fs [] false st
            with ⟨formSchema, c⟩
          dsimp only
          have h := convert_counter doc false fs [] st
          rw [hcv] at h
          split
          · rcases hmb : mergeObjectBody formSchema props req
              with ⟨props', req'⟩
            exact h
          · exact h

theorem extractResponseType_counter (doc : Document)
    (rs : Option (List (String × RespOrRef))) (st : St) :
    (extractResponseType doc rs st).2.counter = st.counter := by
  unfold extractResponseType
  rcases rs with _ | rs
  · rfl
  · dsimp only
    rcases ho : (lookupA rs "200").or ((lookupA rs "201").or
        ((lookupA rs "202").or (lookupA rs "204"))) with _ | rr
    · rfl
    · dsimp only
      rcases hrr : resolveResponse doc rr with _ | ro
      · rfl
      · dsimp only
        rcases hcn : ro.content with _ | content
        · rfl
        · dsimp only
          rcases hj : (lookupA content "application/json").bind (·.schema)
            with _ | s
          · dsimp only
            split
            · rfl
            · rfl
          · dsimp only
            rcases hcv : convertOpenApiSchemaToJsonSchema doc s [] false st
              with ⟨returnSchema, c⟩
            dsimp only
            rcases hb : buildSelectiveDefs doc returnSchema c.st
              with ⟨sd, st₂⟩
            dsimp only
            have h₁ := convert_counter doc false s [] st
            rw [hcv] at h₁
            have h₂ := buildSelectiveDefs_counter doc returnSchema c.st
            rw [hb] at h₂
            exact h₂.trans h₁

theorem convertOperationToMCPMethod_counter (doc : Document) (op : Operation)
    (method path : String) (st : St) :
    (convertOperationToMCPMethod doc op method path st).2.counter =
      st.counter := by
  unfold convertOperationToMCPMethod
  rcases hid : op.operationId with _ | mn
  · rfl
  · dsimp only
    rcases h₁ : paramsGo doc (op.parameters.getD []) [] [] st
      with ⟨props₁, req₁, st₁⟩
    dsimp only
    rcases h₂ : bodyGoMCP doc op.requestBody props₁ req₁ st₁
      with ⟨props₂, req₂, st₂⟩
    dsimp only
    rcases h₃ : extractResponseType doc op.responses st₂ with ⟨ret, st₃⟩
    dsimp only
    rcases h₄ : buildSelectiveDefs doc (assembleInputSchema props₂ req₂) st₃
      with ⟨sd, st₄⟩
    dsimp only
    have c₁ := paramsGo_counter doc (op.parameters.getD []) [] [] st
    rw [h₁] at c₁
    have c₂ := bodyGoMCP_counter doc op.requestBody props₁ req₁ st₁
    rw [h₂] at c₂
    have c₃ := extractResponseType_counter doc op.responses st₂
    rw [h₃] at c₃
    have c₄ := buildSelectiveDefs_counter doc
      (assembleInputSchema props₂ req₂) st₃
    rw [h₄] at c₄
    exact c₄.trans (c₃.trans (c₂.trans c₁))

theorem natToDecGo_length :
    ∀ (fuel k n : Nat), n < 10 ^ k → 0 < k →
      (natToDecGo fuel n).length ≤ k
  | 0, k, _, _, _ => by
    rw [natToDecGo]
    exact Nat.zero_le k
  | fuel + 1, k, n, hn, hk => by
    rw [natToDecGo]
    split
    · simpa using hk
    · next h10 =>
      rcases k with _ | k
      · omega
      rcases k with _ | k
      · exact absurd (by simpa using hn) h10
      · have hdiv : n / 10 < 10 ^ (k + 1) := by
          apply Nat.div_lt_of_lt_mul
          calc n < 10 ^ (k + 2) := hn
            _ = 10 * 10 ^ (k + 1) := by ring
        have hrec := natToDecGo_length fuel (k + 1) (n / 10) hdiv
          (Nat.succ_pos _)
        rw [List.length_append]
        simp only [List.length_cons, List.length_nil]
        omega

theorem natToDec_length {n : Nat} (h : n ≤ 9999) : (natToDec n).length ≤ 4 :=
  natToDecGo_length (n + 1) 4 n
    (by simp only [show (10 : Nat) ^ 4 = 10000 from by norm_num]; omega)
    (by omega)

theorem padStart4_length {s : String} (h : s.length ≤ 4) :
    (padStart4 s).length = 4 := by
  unfold padStart4
  split
  · next hlt =>
    rw [String.length_append]
    show (List.replicate (4 - s.length) '0').length + s.length = 4
    rw [List.length_replicate]
    omega
  · next hge => omega

theorem ensureUniqueName_counter (name : String) (st : St) :
    (ensureUniqueName name st).2.counter ≤ st.counter + 1 := by
  unfold ensureUniqueName
  split
  · exact Nat.le_succ _
  · dsimp only [generateUniqueSuffix]
    exact Nat.le_refl _

theorem ensureUniqueName_length (name : String) (st : St)
    (h : st.counter + 1 ≤ 9999) :
    (ensureUniqueName name st).1.length ≤ 64 := by
  unfold ensureUniqueName
  split
  · next hle => exact hle
  · next hgt =>
    dsimp only [generateUniqueSuffix]
    show (sliceTo name (64 - 5) ++ "-" ++
      padStart4 (natToDec (st.counter + 1))).length ≤ 64
    rw [String.length_append, String.length_append]
    have h₁ : (sliceTo name (64 - 5)).length ≤ 59 := by
      rw [length_sliceTo]
      omega
    have h₂ : (padStart4 (natToDec (st.counter + 1))).length = 4 :=
      padStart4_length (natToDec_length h)
    have h₃ : ("-" : String).length = 1 := rfl
    omega

theorem mcpMethodsGo_names (doc : Document) (cfg : Option ToolFilterConfig)
    (path : String) :
    ∀ (ops : List (String × Operation)) (acc : MCPOut) (st : St),
      (∀ m ∈ acc.methods, m.name.length ≤ 64) →
      st.counter + ops.length ≤ 9999 →
      (∀ m ∈ (mcpMethodsGo doc cfg path ops acc st).1.methods,
        m.name.length ≤ 64) ∧
      (mcpMethodsGo doc cfg path ops acc st).2.counter ≤
        st.counter + ops.length
  | [], _, _, hacc, _ => ⟨hacc, Nat.le_refl _⟩
  | (method, operation) :: rest, acc, st, hacc, hbound => by
    simp only [List.length_cons] at hbound ⊢
    rw [mcpMethodsGo]
    split
    · obtain ⟨ha, hc⟩ :=
        mcpMethodsGo_names doc cfg path rest acc st hacc (by omega)
      exact ⟨ha, by omega⟩
    · split
      · obtain ⟨ha, hc⟩ :=
          mcpMethodsGo_names doc cfg path rest acc st hacc (by omega)
        exact ⟨ha, by omega⟩
      · rcases hconv : convertOperationToMCPMethod doc operation method path st
          with ⟨mres, st'⟩
        have hc' : st'.counter = st.counter := by
          have h := convertOperationToMCPMethod_counter doc operation
            method path st
          rw [hconv] at h
          exact h
        rcases mres with _ | mcpMethod
        · dsimp only
          obtain ⟨ha, hc⟩ :=
            mcpMethodsGo_names doc cfg path rest acc st' hacc (by omega)
          exact ⟨ha, by omega⟩
        · dsimp only
          rcases hen : ensureUniqueName mcpMethod.name st'
            with ⟨uniqueName, st''⟩
          dsimp only
          have hlen : uniqueName.length ≤ 64 := by
            have h := ensureUniqueName_length mcpMethod.name st' (by omega)
            rw [hen] at h
            exact h
          have hcc : st''.counter ≤ st'.counter + 1 := by
            have h := ensureUniqueName_counter mcpMethod.name st'
            rw [hen] at h
            exact h
          obtain ⟨ha, hc⟩ := mcpMethodsGo_names doc cfg path rest
            ⟨acc.methods ++ [{ mcpMethod with
                name := uniqueName
                description := getDescription doc mcpMethod.description }],
              setA acc.openApiLookup ("API" ++ "-" ++ uniqueName)
                ⟨operation, method, path⟩,
              setA acc.zip ("API" ++ "-" ++ uniqueName)
                (⟨operation, method, path⟩,
                  { mcpMethod with
                    name := uniqueName
                    description := getDescription doc mcpMethod.description })⟩
            st''
            (by
              intro m hm
              rcases List.mem_append.mp hm with h | h
              · exact hacc m h
              · have hme := List.mem_singleton.mp h
                subst hme
                exact hlen)
            (by omega)
          exact ⟨ha, by omega⟩

theorem mcpPathsGo_names (doc : Document) (cfg : Option ToolFilterConfig) :
    ∀ (paths : List (String × Option (List (String × Operation))))
      (acc : MCPOut) (st : St),
      (∀ m ∈ acc.methods, m.name.length ≤ 64) →
      st.counter + opCountPaths paths ≤ 9999 →
      (∀ m ∈ (mcpPathsGo doc cfg paths acc st).1.methods,
        m.name.length ≤ 64) ∧
      (mcpPathsGo doc cfg paths acc st).2.counter ≤
        st.counter + opCountPaths paths
  | [], _, _, hacc, _ => ⟨hacc, Nat.le_refl _⟩
  | (p, none) :: rest, acc, st, hacc, hbound =>
    mcpPathsGo_names doc cfg rest acc st hacc hbound
  | (path, some pi) :: rest, acc, st, hacc, hbound => by
    rw [mcpPathsGo]
    rcases hm : mcpMethodsGo doc cfg path pi acc st with ⟨acc', st₁⟩
    dsimp only
    have hbound' : st.counter + (pi.length + opCountPaths rest) ≤ 9999 :=
      hbound
    obtain ⟨ha₁, hc₁⟩ :=
      mcpMethodsGo_names doc cfg path pi acc st hacc (by omega)
    rw [hm] at ha₁ hc₁
    have hc₁' : st₁.counter ≤ st.counter + pi.length := hc₁
    obtain ⟨ha₂, hc₂⟩ :=
      mcpPathsGo_names doc cfg rest acc' st₁ ha₁ (by omega)
    refine ⟨ha₂, ?_⟩
    show _ ≤ st.counter + (pi.length + opCountPaths rest)
    omega

/-- **C1 (amended).** Only the registry projection bounds tool-name
lengths, and only up to counter capacity: provided the run processes at
most 9999 operation entries (so the zero-padded counter suffix keeps four
digits), every tool name `convertToMCPTools` emits is at most 64
characters — an identifier of at most 64 characters passes through
untouched and a longer one is cut to 59 characters plus a five-character
counter suffix.  (The function-call and tool-use projections emit the raw
operation identifier with no length bound, and no projection makes names
unique — duplicate short identifiers collide — as the counterexample
shows.) -/
theorem c1_amended_registry_names_bounded (doc : Document)
    (cfg : Option ToolFilterConfig) (st : St)
    (h : st.counter + opCount doc ≤ 9999) :
    ∀ m ∈ (convertToMCPTools doc cfg st).1.methods, m.name.length ≤ 64 :=
  (mcpPathsGo_names doc cfg doc.paths ⟨[], [], []⟩ st
    (fun m hm => absurd hm (List.not_mem_nil m)) h).1

/-- The bound instantiated on the two-long-identifier document from a
fresh instance. -/
theorem c1_amended_witness :
    St.init.counter + opCount dupDoc ≤ 9999 ∧
      ∀ m ∈ (convertToMCPTools dupDoc none St.init).1.methods,
        m.name.length ≤ 64 :=
  ⟨by decide,
    c1_amended_registry_names_bounded dupDoc none St.init (by decide)⟩

theorem jsize_mk (ref ty fmt d df : Option String)
    (en : Option (List String)) (props : Option JProps)
    (req : Option (List String)) (addP : Option (Sum Bool JSchema))
    (items : Option (Sum JSchema JList)) (one anyO allO : Option JList)
    (ds : Option JProps) :
    jsize (.mk ref ty fmt d en df props req addP items one anyO allO ds) =
      1 + jpsizeO props + jsizeAO addP + jsizeItm items + jlsizeO one +
        jlsizeO anyO + jlsizeO allO + jpsizeO ds := by
  rcases props with _ | ps <;> rcases addP with _ | (b | t) <;>
    rcases items with _ | (it | il) <;> rcases one with _ | l₁ <;>
    rcases anyO with _ | l₂ <;> rcases allO with _ | l₃ <;>
    rcases ds with _ | dd <;> rfl

theorem ptrNames_mk (ref ty fmt d df : Option String)
    (en : Option (List String)) (props : Option JProps)
    (req : Option (List String)) (addP : Option (Sum Bool JSchema))
    (items : Option (Sum JSchema JList)) (one anyO allO : Option JList)
    (ds : Option JProps) :
    ptrNames (.mk ref ty fmt d en df props req addP items one anyO allO ds) =
      refNames ref ++
        (ptrNamesPO props ++ (ptrNamesItm items ++ (ptrNamesAO addP ++
          (ptrNamesLO one ++ (ptrNamesLO anyO ++ ptrNamesLO allO))))) := by
  rcases props with _ | ps <;> rcases addP with _ | (b | t) <;>
    rcases items with _ | (it | il) <;> rcases one with _ | l₁ <;>
    rcases anyO with _ | l₂ <;> rcases allO with _ | l₃ <;>
    rcases ds with _ | dd <;> rfl

theorem ReachP_mono {T : List (String × JSchema)} {P P' : List String}
    (h : ∀ m ∈ P, m ∈ P') {n : String} (hr : ReachP T P n) :
    ReachP T P' n := by
  induction hr with
  | base hm => exact .base (h _ hm)
  | step _ hl hm ih => exact .step ih hl hm

theorem ReachP_through {T : List (String × JSchema)} {P : List String}
    {n₀ : String} {b : JSchema} (h₀ : ReachP T P n₀)
    (hb : lookupA T n₀ = some b) {m : String}
    (hr : ReachP T (ptrNames b) m) : ReachP T P m := by
  induction hr with
  | base hm => exact .step h₀ hb hm
  | step _ hl hm ih => exact .step ih hl hm

theorem COut_id {doc : Document} {T : List (String × JSchema)}
    {a : List String × St} (h : GInv doc T a.2) : COut doc T [] a a :=
  ⟨fun _ hn => hn, h, fun _ hn => Or.inl hn,
    fun _ hn hna _ _ _ _ _ => absurd hn hna,
    fun _ hn => absurd hn (List.not_mem_nil _)⟩

theorem COut_trans {doc : Document} {T : List (String × JSchema)}
    {P₁ P₂ : List String} {a b r : List String × St}
    (h₁ : COut doc T P₁ a b) (h₂ : COut doc T P₂ b r) :
    COut doc T (P₁ ++ P₂) a r := by
  obtain ⟨g₁, i₁, m₁, c₁, p₁⟩ := h₁
  obtain ⟨g₂, i₂, m₂, c₂, p₂⟩ := h₂
  refine ⟨fun n hn => g₂ n (g₁ n hn), i₂, ?_, ?_, ?_⟩
  · intro n hn
    rcases m₂ n hn with hb | hr
    · rcases m₁ n hb with ha | hr
      · exact Or.inl ha
      · exact Or.inr (ReachP_mono (fun m hm => List.mem_append_left _ hm) hr)
    · exact Or.inr (ReachP_mono (fun m hm => List.mem_append_right _ hm) hr)
  · intro n hn hna bdy hbdy m hm hpres
    by_cases hnb : n ∈ b.1
    · exact g₂ m (c₁ n hnb hna bdy hbdy m hm hpres)
    · exact c₂ n hn hnb bdy hbdy m hm hpres
  · intro n hn hpres
    rcases List.mem_append.mp hn with h | h
    · exact g₂ n (p₁ n h hpres)
    · exact p₂ n h hpres

theorem COut_mono_P {doc : Document} {T : List (String × JSchema)}
    {P P' : List String} {a r : List String × St}
    (hPP : ∀ n, n ∈ P ↔ n ∈ P') (h : COut doc T P a r) :
    COut doc T P' a r := by
  obtain ⟨g, i, m, c, p⟩ := h
  exact ⟨g, i,
    fun n hn => (m n hn).imp id (ReachP_mono fun x hx => (hPP x).mp hx),
    c,
    fun n hn hpres => p n ((hPP n).mpr hn) hpres⟩

theorem namesToCollect_grow {keys c c' : List String}
    (h : ∀ n ∈ c, n ∈ c') :
    namesToCollect keys c' ≤ namesToCollect keys c := by
  apply length_filter_le_of_imp
  intro a ha
  simp only [decide_eq_true_eq] at ha ⊢
  exact fun hmem => ha (h a hmem)

theorem namesToCollect_snoc {keys c : List String} {n : String}
    (hk : n ∈ keys) (hn : n ∉ c) :
    namesToCollect keys (c ++ [n]) < namesToCollect keys c := by
  apply length_filter_lt_of_missing _ _ _
    (fun a ha => ?_) n hk (by simpa using hn) (by simp)
  simp only [decide_eq_true_eq] at ha ⊢
  exact fun hmem => ha (List.mem_append_left _ hmem)

theorem collectBudget_mono {T : List (String × JSchema)}
    {c c' : List String} (h : ∀ n ∈ c, n ∈ c') :
    collectBudget T c' ≤ collectBudget T c :=
  Nat.mul_le_mul_right _ (namesToCollect_grow h)

theorem GInv_step {doc : Document} {T : List (String × JSchema)} {st : St}
    (h : GInv doc T st) : GInv doc T (getAllComponentSchemas doc st).2 := by
  rcases st with ⟨cache, log, counter, allComps⟩
  rcases allComps with _ | m
  · unfold GInv getAllComponentSchemas at h ⊢
    dsimp only at h ⊢
    rcases hc : convertComponentsToJsonSchema doc ⟨cache, log, counter, none⟩
      with ⟨m', st₂⟩
    rw [hc] at h
    exact h
  · exact h

theorem collectPropsWith_closure (doc : Document)
    (T : List (String × JSchema))
    {f : JSchema → List String × St → List String × St} (F : Nat)
    (hstep : ∀ s' a', GInv doc T a'.2 →
      jsize s' + collectBudget T a'.1 < F →
      COut doc T (ptrNames s') a' (f s' a')) :
    ∀ (ps : JProps) (a : List String × St), GInv doc T a.2 →
      jpsize ps + collectBudget T a.1 < F →
      COut doc T (ptrNamesP ps) a (collectPropsWith f ps a)
  | .nil, a, hG, _ => COut_id hG
  | .cons k v rest, a, hG, hB => by
    have hB' : 1 + jsize v + jpsize rest + collectBudget T a.1 < F := hB
    have h₁ := hstep v a hG (by omega)
    have hb₁ := collectBudget_mono (T := T) h₁.1
    have h₂ := collectPropsWith_closure doc T F hstep rest (f v a) h₁.2.1
      (by omega)
    exact COut_trans h₁ h₂

theorem collectListWith_closure (doc : Document)
    (T : List (String × JSchema))
    {f : JSchema → List String × St → List String × St} (F : Nat)
    (hstep : ∀ s' a', GInv doc T a'.2 →
      jsize s' + collectBudget T a'.1 < F →
      COut doc T (ptrNames s') a' (f s' a')) :
    ∀ (l : JList) (a : List String × St), GInv doc T a.2 →
      jlsize l + collectBudget T a.1 < F →
      COut doc T (ptrNamesL l) a (collectListWith f l a)
  | .nil, a, hG, _ => COut_id hG
  | .cons v rest, a, hG, hB => by
    have hB' : 1 + jsize v + jlsize rest + collectBudget T a.1 < F := hB
    have h₁ := hstep v a hG (by omega)
    have hb₁ := collectBudget_mono (T := T) h₁.1
    have h₂ := collectListWith_closure doc T F hstep rest (f v a) h₁.2.1
      (by omega)
    exact COut_trans h₁ h₂

theorem optStep_closure_props (doc : Document)
    (T : List (String × JSchema))
    {f : JSchema → List String × St → List String × St} (F : Nat)
    (hstep : ∀ s' a', GInv doc T a'.2 →
      jsize s' + collectBudget T a'.1 < F →
      COut doc T (ptrNames s') a' (f s' a')) :
    ∀ (o : Option JProps) (a : List String × St), GInv doc T a.2 →
      jpsizeO o + collectBudget T a.1 < F →
      COut doc T (ptrNamesPO o) a (optStep (collectPropsWith f) o a)
  | some ps, a, hG, hB => collectPropsWith_closure doc T F hstep ps a hG hB
  | none, _, hG, _ => COut_id hG

theorem optStep_closure_list (doc : Document)
    (T : List (String × JSchema))
    {f : JSchema → List String × St → List String × St} (F : Nat)
    (hstep : ∀ s' a', GInv doc T a'.2 →
      jsize s' + collectBudget T a'.1 < F →
      COut doc T (ptrNames s') a' (f s' a')) :
    ∀ (o : Option JList) (a : List String × St), GInv doc T a.2 →
      jlsizeO o + collectBudget T a.1 < F →
      COut doc T (ptrNamesLO o) a (optStep (collectListWith f) o a)
  | some l, a, hG, hB => collectListWith_closure doc T F hstep l a hG hB
  | none, _, hG, _ => COut_id hG

theorem collectItemsStep_closure (doc : Document)
    (T : List (String × JSchema))
    {f : JSchema → List String × St → List String × St} (F : Nat)
    (hstep : ∀ s' a', GInv doc T a'.2 →
      jsize s' + collectBudget T a'.1 < F →
      COut doc T (ptrNames s') a' (f s' a')) :
    ∀ (o : Option (Sum JSchema JList)) (a : List String × St),
      GInv doc T a.2 → jsizeItm o + collectBudget T a.1 < F →
      COut doc T (ptrNamesItm o) a (collectItemsStep f o a)
  | some (.inl t), a, hG, hB => hstep t a hG hB
  | some (.inr l), a, hG, hB => collectListWith_closure doc T F hstep l a hG hB
  | none, _, hG, _ => COut_id hG

theorem collectAddPStep_closure (doc : Document)
    (T : List (String × JSchema))
    {f : JSchema → List String × St → List String × St} (F : Nat)
    (hstep : ∀ s' a', GInv doc T a'.2 →
      jsize s' + collectBudget T a'.1 < F →
      COut doc T (ptrNames s') a' (f s' a')) :
    ∀ (o : Option (Sum Bool JSchema)) (a : List String × St),
      GInv doc T a.2 → jsizeAO o + collectBudget T a.1 < F →
      COut doc T (ptrNamesAO o) a (collectAddPStep f o a)
  | some (.inr t), a, hG, hB => hstep t a hG hB
  | some (.inl _), _, hG, _ => COut_id hG
  | none, _, hG, _ => COut_id hG

theorem collectRefStep_closure (doc : Document)
    (T : List (String × JSchema))
    {f : JSchema → List String × St → List String × St} (F : Nat)
    (hstep : ∀ s' a', GInv doc T a'.2 →
      jsize s' + collectBudget T a'.1 < F →
      COut doc T (ptrNames s') a' (f s' a')) :
    ∀ (r? : Option String) (a : List String × St), GInv doc T a.2 →
      collectBudget T a.1 < F →
      COut doc T (refNames r?) a (collectRefStep doc f r? a)
  | none, _, hG, _ => COut_id hG
  | some r, a, hG, hB => by
    rw [collectRefStep, refNames]
    by_cases hpre : startsWithS r defsPrefix = true
    case neg =>
      rw [if_neg hpre, if_neg hpre]
      exact COut_id hG
    case pos =>
      rw [if_pos hpre, if_pos hpre]
      by_cases hmem : stripPre r defsPrefix ∈ a.1
      case pos =>
        rw [if_pos hmem]
        refine ⟨fun _ h => h, hG, fun _ h => Or.inl h,
          fun _ h hna _ _ _ _ _ => absurd h hna, ?_⟩
        intro n' hn' _
        have := List.mem_singleton.mp hn'
        rw [this]
        exact hmem
      case neg =>
        rw [if_neg hmem]
        rcases hget : getAllComponentSchemas doc a.2 with ⟨allS, st'⟩
        dsimp only
        have hTS : allS = T := by
          have h := hG
          unfold GInv at h
          rw [hget] at h
          exact h
        subst hTS
        have hG' : GInv doc allS st' := by
          have h := GInv_step hG
          rw [hget] at h
          exact h
        rcases hlook : lookupA allS (stripPre r defsPrefix) with _ | body
        · dsimp only
          refine ⟨fun n' h => List.mem_append_left _ h, hG', ?_, ?_, ?_⟩
          · intro n' hn'
            rcases List.mem_append.mp hn' with h | h
            · exact Or.inl h
            · exact Or.inr (.base h)
          · intro n' hn' hna b hb _ _ _
            rcases List.mem_append.mp hn' with h | h
            · exact absurd h hna
            · rw [List.mem_singleton.mp h] at hb
              rw [hlook] at hb
              cases hb
          · intro n' hn' _
            rw [List.mem_singleton.mp hn']
            exact List.mem_append_right _ (List.mem_singleton.mpr rfl)
        · dsimp only
          have hk : stripPre r defsPrefix ∈ allS.map Prod.fst :=
            lookupA_mem hlook
          have hbody : jsize body ≤ maxBodySize allS := by
            apply le_maxList
            exact List.mem_map.mpr ⟨_, lookupA_some_mem hlook, rfl⟩
          have hlt := namesToCollect_snoc (c := a.1) hk hmem
          have hmul : collectBudget allS (a.1 ++ [stripPre r defsPrefix]) +
              (1 + maxBodySize allS) ≤ collectBudget allS a.1 := by
            unfold collectBudget
            have h2 := Nat.mul_le_mul_right (1 + maxBodySize allS) hlt
            rw [Nat.succ_mul] at h2
            exact h2
          have hf := hstep body (a.1 ++ [stripPre r defsPrefix], st') hG'
            (by
              show jsize body +
                collectBudget allS (a.1 ++ [stripPre r defsPrefix]) < F
              omega)
          obtain ⟨gf, if', mf, cf, pf⟩ := hf
          have hbase : ReachP allS [stripPre r defsPrefix]
              (stripPre r defsPrefix) := .base (List.mem_singleton.mpr rfl)
          refine ⟨?_, if', ?_, ?_, ?_⟩
          · intro n' hn'
            exact gf n' (List.mem_append_left _ hn')
          · intro n' hn'
            rcases mf n' hn' with h | h
            · rcases List.mem_append.mp h with h | h
              · exact Or.inl h
              · exact Or.inr (.base h)
            · exact Or.inr (ReachP_through hbase hlook h)
          · intro n' hn' hna b hb m hm hpres
            by_cases hnc : n' ∈ a.1 ++ [stripPre r defsPrefix]
            · rcases List.mem_append.mp hnc with h | h
              · exact absurd h hna
              · rw [List.mem_singleton.mp h] at hb
                rw [hlook] at hb
                cases hb
                exact pf m hm hpres
            · exact cf n' hn' hnc b hb m hm hpres
          · intro n' hn' _
            rw [List.mem_singleton.mp hn']
            exact gf _ (List.mem_append_right _ (List.mem_singleton.mpr rfl))

theorem collectGo_closure (doc : Document) (T : List (String × JSchema)) :
    ∀ (fuel : Nat) (s : JSchema) (a : List String × St),
      GInv doc T a.2 →
      jsize s + collectBudget T a.1 < fuel →
      COut doc T (ptrNames s) a (collectGo doc fuel s a) := by
  intro fuel
  induction fuel with
  | zero => intro s a _ hB; exact absurd hB (Nat.not_lt_zero _)
  | succ fuel ih =>
    intro s a hG hB
    rcases s with ⟨ref, ty, fmt, d, en, df, props, req, addP, items,
      one, anyO, allO, ds⟩
    rw [collectGo]
    dsimp only [JSchema.ref, JSchema.properties, JSchema.items,
      JSchema.additionalProperties, JSchema.oneOf, JSchema.anyOf,
      JSchema.allOf]
    rw [jsize_mk] at hB
    have h₁ := collectRefStep_closure doc T fuel ih ref a hG (by omega)
    have hb₁ := collectBudget_mono (T := T) h₁.1
    have h₂ := optStep_closure_props doc T fuel ih props _ h₁.2.1 (by omega)
    have hc₂ := COut_trans h₁ h₂
    have hb₂ := collectBudget_mono (T := T) hc₂.1
    have h₃ := collectItemsStep_closure doc T fuel ih items _ hc₂.2.1
      (by omega)
    have hc₃ := COut_trans hc₂ h₃
    have hb₃ := collectBudget_mono (T := T) hc₃.1
    have h₄ := collectAddPStep_closure doc T fuel ih addP _ hc₃.2.1
      (by omega)
    have hc₄ := COut_trans hc₃ h₄
    have hb₄ := collectBudget_mono (T := T) hc₄.1
    have h₅ := optStep_closure_list doc T fuel ih one _ hc₄.2.1 (by omega)
    have hc₅ := COut_trans hc₄ h₅
    have hb₅ := collectBudget_mono (T := T) hc₅.1
    have h₆ := optStep_closure_list doc T fuel ih anyO _ hc₅.2.1 (by omega)
    have hc₆ := COut_trans hc₅ h₆
    have hb₆ := collectBudget_mono (T := T) hc₆.1
    have h₇ := optStep_closure_list doc T fuel ih allO _ hc₆.2.1 (by omega)
    have hc₇ := COut_trans hc₆ h₇
    refine COut_mono_P (fun n => ?_) hc₇
    rw [ptrNames_mk]
    simp only [List.mem_append]
    tauto

theorem mem_setA {α : Type} {l : List (String × α)} {k : String} {v : α}
    {p : String × α} (h : p ∈ setA l k v) : p ∈ l ∨ p = (k, v) := by
  unfold setA at h
  split at h
  · rcases List.mem_map.mp h with ⟨q, hq, hfq⟩
    by_cases hqk : (q.1 == k) = true
    · rw [if_pos hqk] at hfq
      exact Or.inr hfq.symm
    · rw [if_neg hqk] at hfq
      rw [← hfq]
      exact Or.inl hq
  · rcases List.mem_append.mp h with h | h
    · exact Or.inl h
    · exact Or.inr (List.mem_singleton.mp h)

theorem foldDefs_keys_mono (T : List (String × JSchema)) :
    ∀ (R : List String) (acc : List (String × JSchema)) (n : String),
      n ∈ acc.map Prod.fst →
      n ∈ (R.foldl (defsStep T) acc).map Prod.fst
  | [], _, _, h => h
  | k :: R, acc, n, h => by
    rw [List.foldl_cons]
    apply foldDefs_keys_mono T R _ n
    unfold defsStep
    rcases hl : lookupA T k with _ | v
    · exact h
    · dsimp only
      rw [setA_map_fst]
      split
      · exact h
      · exact List.mem_append_left _ h

theorem foldDefs_present (T : List (String × JSchema)) :
    ∀ (R : List String) (acc : List (String × JSchema)) (n : String),
      n ∈ R → (lookupA T n).isSome →
      n ∈ (R.foldl (defsStep T) acc).map Prod.fst
  | [], _, _, h, _ => absurd h (List.not_mem_nil _)
  | k :: R, acc, n, hmem, hpres => by
    rw [List.foldl_cons]
    by_cases hR : n ∈ R
    · exact foldDefs_present T R _ n hR hpres
    · have hk : n = k := by
        rcases List.mem_cons.mp hmem with h | h
        · exact h
        · exact absurd h hR
      subst hk
      apply foldDefs_keys_mono
      unfold defsStep
      obtain ⟨v, hv⟩ := Option.isSome_iff_exists.mp hpres
      rw [hv]
      dsimp only
      rw [setA_map_fst]
      split
      · next hfind =>
        obtain ⟨q, hq⟩ := Option.isSome_iff_exists.mp hfind
        have hqmem := List.mem_of_find?_eq_some hq
        have hqk : q.1 = n := by simpa using List.find?_some hq
        exact List.mem_map.mpr ⟨q, hqmem, hqk⟩
      · exact List.mem_append_right _ (List.mem_singleton.mpr rfl)

theorem foldDefs_mem (T : List (String × JSchema)) :
    ∀ (R : List String) (acc : List (String × JSchema))
      (p : String × JSchema),
      p ∈ R.foldl (defsStep T) acc →
      p ∈ acc ∨ (p.1 ∈ R ∧ lookupA T p.1 = some p.2)
  | [], _, _, h => Or.inl h
  | k :: R, acc, p, h => by
    rw [List.foldl_cons] at h
    rcases foldDefs_mem T R _ p h with hstep | ⟨hR, hl⟩
    · unfold defsStep at hstep
      cases hlk : lookupA T k with
      | none =>
        rw [hlk] at hstep
        exact Or.inl hstep
      | some v =>
        rw [hlk] at hstep
        rcases mem_setA hstep with hacc | hpkv
        · exact Or.inl hacc
        · refine Or.inr ⟨?_, ?_⟩
          · rw [hpkv]
            exact List.mem_cons_self k R
          · rw [hpkv]
            exact hlk
    · exact Or.inr ⟨List.mem_cons_of_mem _ hR, hl⟩

/-- **C3 (amended).** For every schema `s` whose selective-defs builder
returns a defs map `D` (with the component table the run's instance
computes): (soundness, restricted to pointers the table can serve) every
local pointer in a collector-walked position of `s`, and every such
pointer inside any body of `D`, that names a component the table holds,
names a key of `D`; every body of `D` is the table's converted body for
its key; and (minimality) every key of `D` is reachable from a local
pointer of `s` by chasing pointers through table bodies.  (A pointer to a
name the table lacks stays dangling — the original unrestricted soundness
fails, as the counterexample shows.) -/
theorem c3_amended_defs_closure (doc : Document) (s : JSchema) (st : St)
    (D : List (String × JSchema))
    (hD : (buildSelectiveDefs doc s st).1 = some D) :
    (∀ n ∈ ptrNames s,
      (lookupA (getAllComponentSchemas doc st).1 n).isSome →
        n ∈ D.map Prod.fst) ∧
    (∀ p ∈ D, ∀ m ∈ ptrNames p.2,
      (lookupA (getAllComponentSchemas doc st).1 m).isSome →
        m ∈ D.map Prod.fst) ∧
    (∀ p ∈ D, lookupA (getAllComponentSchemas doc st).1 p.1 = some p.2) ∧
    (∀ p ∈ D, ReachP (getAllComponentSchemas doc st).1 (ptrNames s) p.1) := by
  have hout := collectGo_closure doc (getAllComponentSchemas doc st).1
    (collectBound doc s ([], st)) s ([], st) rfl (Nat.lt_succ_self _)
  unfold buildSelectiveDefs at hD
  rcases hcol : collectReferencedSchemaNames doc s ([], st) with ⟨R, st₁⟩
  rw [hcol] at hD
  dsimp only at hD
  rw [show collectGo doc (collectBound doc s ([], st)) s ([], st) = (R, st₁)
    from hcol] at hout
  obtain ⟨hgrow, hG₁, hreach, hclosed, hcomplete⟩ := hout
  split at hD
  · simp at hD
  · rcases hall : getAllComponentSchemas doc st₁ with ⟨allS, st₂⟩
    rw [hall] at hD
    dsimp only at hD
    have hTS : allS = (getAllComponentSchemas doc st).1 := by
      have h := hG₁
      unfold GInv at h
      dsimp only at h
      rw [hall] at h
      exact h
    subst hTS
    split at hD
    · simp at hD
    · have hDD : R.foldl (defsStep (getAllComponentSchemas doc st).1) [] =
          D := by
        injection hD
      subst hDD
      refine ⟨?_, ?_, ?_, ?_⟩
      · intro n hn hpres
        exact foldDefs_present _ R [] n (hcomplete n hn hpres) hpres
      · intro p hp m hm hpres
        rcases foldDefs_mem _ R [] p hp with h | ⟨hpR, hpl⟩
        · exact absurd h (List.not_mem_nil _)
        · have hmR : m ∈ R :=
            hclosed p.1 hpR (List.not_mem_nil _) p.2 hpl m hm hpres
          exact foldDefs_present _ R [] m hmR hpres
      · intro p hp
        rcases foldDefs_mem _ R [] p hp with h | ⟨_, hpl⟩
        · exact absurd h (List.not_mem_nil _)
        · exact hpl
      · intro p hp
        rcases foldDefs_mem _ R [] p hp with h | ⟨hpR, _⟩
        · exact absurd h (List.not_mem_nil _)
        · rcases hreach p.1 hpR with h | h
          · exact absurd h (List.not_mem_nil _)
          · exact h

/-- Counterexample to C3 as stated: over a table holding only `A`, a
schema pointing at `A` and at a missing `X` compiles to a defs map with
the single key `A`, while the local pointer `#/$defs/X` still occurs
inside the schema — soundness over all local pointers fails. -/
theorem c3_counterexample :
    (buildSelectiveDefs c3docA c3schemaAX St.init).1 = some c3defsA ∧
      "X" ∈ ptrNames c3schemaAX ∧
      "X" ∉ c3defsA.map Prod.fst :=
  ⟨rfl, by decide, by decide⟩

/-- The amended closure statement exercised on the one-component document:
the pointer `A` of the schema is table-served and lands in the defs
map. -/
theorem c3_amended_witness :
    (buildSelectiveDefs c3docA c3schemaA St.init).1 = some c3defsA ∧
      "A" ∈ ptrNames c3schemaA ∧
      (lookupA (getAllComponentSchemas c3docA St.init).1 "A").isSome ∧
      "A" ∈ c3defsA.map Prod.fst :=
  ⟨rfl, by decide, rfl,
    (c3_amended_defs_closure c3docA c3schemaA St.init c3defsA rfl).1 "A"
      (by decide) rfl⟩

end Parser
